import Mathlib

/-!
Verification of the CatAmount spatio-temporal clustering core.

This file gives a shallow embedding, in Lean 4, of the data model and the
algorithms of the CatAmount repository (GPS collar analysis): the Fix data
model, the Cluster accumulator (`catamount/common.py`), the single-animal
clustering sweep (`catamount/find_clusters.py`), the multi-animal crossing
sweep (`catamount/find_crossings.py`), the whodunit search
(`catamount/find_whodunit.py`) and the survey-to-cluster matching
(`catamount/match_survey_to_cluster.py`), together with theorems checking
the behavioural properties stated in the system specification.

Modelling conventions:
* Python floats (coordinates, timestamps in seconds) are modelled as
  rationals, with real numbers used where the source takes square roots
  or arctangents; this is ideal arithmetic, float rounding is not modelled.
* Every distance test in the clustering code has the form
  `sqrt (dx^2 + dy^2) <= radius`; for `0 <= radius` this is equivalent to
  the rational test `dx^2 + dy^2 <= radius^2` (lemma
  `distance_from_le_iff` below), and the sweeps use the rational form so
  that they stay computable.
* Mutation is modelled by explicit state passing; the dictionaries used as
  sets (`already_used`, `cats_involved`, `seen`) are modelled as lists of
  keys with membership, insertion order being irrelevant to the source's
  use of them.
-/

namespace CatAmount

/-- Membership tag of a fix inside a cluster. In the source this is the
mutable `Fix.status` field, set to the string home or away immediately
before each `Cluster.add_fix` call; here it is passed to `add_fix`
explicitly. -/
inductive Status where
  | home
  | away
  deriving DecidableEq

/-- A Fix (`common.py`, class `Fix`): one GPS reading. `id` is the csv id,
`catid` the owning animal id, `time` the timestamp in seconds, `x`/`y`
the planar coordinates. -/
structure Fix where
  id : String
  catid : String
  time : ℚ
  x : ℚ
  y : ℚ
  deriving DecidableEq

/-- Squared planar offset between two points. Used through
`distance_from_le_iff` to express the source's distance tests. -/
def dist_sq (x1 y1 x2 y2 : ℚ) : ℚ := (x1 - x2) ^ 2 + (y1 - y2) ^ 2

/-- The source's Euclidean distance (`Fix.distance_from`,
`Cluster.distance_from`, `common.py` lines 549-554 and 729-734):
`sqrt (|dx| ^ 2 + |dy| ^ 2)`. -/
noncomputable def distance_from (x1 y1 x2 y2 : ℚ) : ℝ :=
  Real.sqrt (|(x1 : ℝ) - (x2 : ℝ)| ^ 2 + |(y1 : ℝ) - (y2 : ℝ)| ^ 2)

/-- A Cluster (`common.py`, class `Cluster`). `id` is the timestamp of the
first home fix (the source formats it with strftime, which is injective on
whole-minute timestamps; we keep the raw time). The fields `start_time`,
`end_time`, `elapsed_time`, `x`, `y` are left unset by `__init__` in the
source and are first written by `recalculate_core_data`; no code path
reads them before the first home-fix recalculation, so we initialise them
in `mkCluster` with the values a recalculation of the singleton home list
yields, which is unobservable. -/
structure Cluster where
  home_fixes : List Fix
  away_fixes : List Fix
  all_fixes : List Fix
  id : ℚ
  catid : String
  start_time : ℚ
  end_time : ℚ
  elapsed_time : ℚ
  x : ℚ
  y : ℚ
  deriving DecidableEq

/-- `Cluster.recalculate_core_data` (`common.py` lines 763-780): start and
end time from the first and last home fix, centroid as the arithmetic mean
of the home fixes' coordinates. -/
def Cluster.recalculate_core_data (c : Cluster) : Cluster :=
  { c with
    start_time := ((c.home_fixes.head?).map Fix.time).getD 0
    end_time := ((c.home_fixes.getLast?).map Fix.time).getD 0
    elapsed_time :=
      ((c.home_fixes.getLast?).map Fix.time).getD 0 -
        ((c.home_fixes.head?).map Fix.time).getD 0
    x := (c.home_fixes.map Fix.x).sum / (c.home_fixes.length : ℚ)
    y := (c.home_fixes.map Fix.y).sum / (c.home_fixes.length : ℚ) }

/-- `Cluster.__init__` (`common.py` lines 722-727). -/
def mkCluster (first_fix : Fix) : Cluster :=
  Cluster.recalculate_core_data
    { home_fixes := [first_fix]
      away_fixes := []
      all_fixes := [first_fix]
      id := first_fix.time
      catid := first_fix.catid
      start_time := 0, end_time := 0, elapsed_time := 0, x := 0, y := 0 }

/-- `Cluster.add_fix` (`common.py` lines 752-761); `status` is the value the
caller just stored in `fix.status`. -/
def Cluster.add_fix (c : Cluster) (f : Fix) (status : Status) : Cluster :=
  let c1 := { c with all_fixes := c.all_fixes ++ [f] }
  match status with
  | Status.home =>
      Cluster.recalculate_core_data { c1 with home_fixes := c1.home_fixes ++ [f] }
  | Status.away => { c1 with away_fixes := c1.away_fixes ++ [f] }

/-- `Fix.delay_from` (`common.py` lines 556-562), point versus point
branch: the absolute time difference. -/
def Fix.delay_from_fix (f g : Fix) : ℚ := |f.time - g.time|

/-- `Fix.delay_from` (`common.py` lines 556-562), point versus Cluster
branch: the absolute offset from the cluster's end time only. -/
def Fix.delay_from_cluster (f : Fix) (c : Cluster) : ℚ := |f.time - c.end_time|

/-- The sweep's mutable `current_item`, either a bare Fix or a promoted
Cluster (the implicit tagged variant of spec section 9). -/
inductive CurrentItem where
  | fix (f : Fix)
  | cluster (c : Cluster)
  deriving DecidableEq

/-- `fix.delay_from(current_item)` as used by the sweeps; dispatches on the
runtime type of `current_item` like the source's `delay_from`. -/
def Fix.delay_from_item (f : Fix) : CurrentItem → ℚ
  | CurrentItem.fix g => Fix.delay_from_fix f g
  | CurrentItem.cluster c => Fix.delay_from_cluster f c

/-- Squared-distance form of `fix.distance_from(current_item)`: against a
bare fix this is the offset from that fix, against a promoted cluster the
offset from the live centroid. -/
def Fix.dist_sq_from_item (f : Fix) : CurrentItem → ℚ
  | CurrentItem.fix g => dist_sq f.x f.y g.x g.y
  | CurrentItem.cluster c => dist_sq f.x f.y c.x c.y

/-- The promotion step shared by both sweeps (`find_clusters.py` lines
81-84, `find_crossings.py` lines 95-98): a bare fix is promoted to a new
cluster with itself as first home fix, an already promoted cluster is kept.
The source guards this with `isinstance(current_item, Fix)`. -/
def promote : CurrentItem → Cluster
  | CurrentItem.fix first_fix => mkCluster first_fix
  | CurrentItem.cluster c => c

/-- The forward scan of `FCTrail.find_clusters` (`find_clusters.py` lines
64-105): walk the remaining worklist, skip used fixes, stop at the time
cutoff, match by distance (promoting the current fix to a cluster on the
first match and flushing the accumulated potential away fixes before the
new home fix), otherwise accumulate the fix as a potential away fix.
Returns the final `current_item` and the updated used set (keyed by
timestamp). -/
def scanFC (radius cutoff : ℚ) :
    List Fix → CurrentItem → List Fix → List ℚ → CurrentItem × List ℚ
  | [], cur, _pa, used => (cur, used)
  | f :: rest, cur, pa, used =>
    if f.time ∈ used then
      scanFC radius cutoff rest cur pa used
    else if cutoff < Fix.delay_from_item f cur then
      (cur, used)
    else if Fix.dist_sq_from_item f cur ≤ radius ^ 2 then
      let c1 := pa.foldl (fun c a => Cluster.add_fix c a Status.away) (promote cur)
      let c2 := Cluster.add_fix c1 f Status.home
      scanFC radius cutoff rest (CurrentItem.cluster c2) [] (used ++ [f.time])
    else
      scanFC radius cutoff rest cur (pa ++ [f]) used

/-- Outer loop of `FCTrail.find_clusters` (`find_clusters.py` lines 48-124):
pop each fix in turn, skip it when already used, scan ahead, and commit the
promoted cluster if one was made. The source's post-loop commit (lines
122-124) is unreachable because `current_item` is reset right after every
in-loop commit, so nothing is pending when the worklist empties. -/
def findClustersFCAux (radius cutoff : ℚ) :
    List Fix → List ℚ → List Cluster → List Cluster
  | [], _used, clusters => clusters
  | f :: rest, used, clusters =>
    if f.time ∈ used then
      findClustersFCAux radius cutoff rest used clusters
    else
      match scanFC radius cutoff rest (CurrentItem.fix f) [] used with
      | (CurrentItem.cluster c, used') =>
          findClustersFCAux radius cutoff rest used' (clusters ++ [c])
      | (CurrentItem.fix _, used') =>
          findClustersFCAux radius cutoff rest used' clusters

/-- `FCTrail.find_clusters` on a worklist of fixes. -/
def findClustersFC (radius cutoff : ℚ) (fixes : List Fix) : List Cluster :=
  findClustersFCAux radius cutoff fixes [] []

/-- The key the multi-animal sweep uses for its used set: the
`'catid-time'` string of `find_crossings.py` lines 74, 84 and 119. -/
def keyX (f : Fix) : String × ℚ := (f.catid, f.time)

/-- The `cats_involved` update at promotion (`find_crossings.py` line 99):
promoting a bare first fix records its catid; keeping an existing cluster
leaves the map unchanged. -/
def promoteCats (cur : CurrentItem) (cats : List String) : List String :=
  match cur with
  | CurrentItem.fix first_fix =>
      if first_fix.catid ∈ cats then cats else cats ++ [first_fix.catid]
  | CurrentItem.cluster _ => cats

/-- The forward scan of `FXDataPool.find_clusters` (`find_crossings.py`
lines 77-123). Differences from the single-animal scan: the used set is
keyed by (catid, time); a promoted cluster tracks the set `cats_involved`
of animal ids seen so far, the matched fix's id being recorded before the
away flush; an accumulated potential away fix is flushed only if its
animal id is already in `cats_involved`. -/
def scanFX (radius cutoff : ℚ) :
    List Fix → CurrentItem → List Fix → List (String × ℚ) → List String →
      CurrentItem × List (String × ℚ) × List String
  | [], cur, _pa, used, cats => (cur, used, cats)
  | f :: rest, cur, pa, used, cats =>
    if keyX f ∈ used then
      scanFX radius cutoff rest cur pa used cats
    else if cutoff < Fix.delay_from_item f cur then
      (cur, used, cats)
    else if Fix.dist_sq_from_item f cur ≤ radius ^ 2 then
      let cats0 := promoteCats cur cats
      let cats1 := if f.catid ∈ cats0 then cats0 else cats0 ++ [f.catid]
      let c1 := pa.foldl
        (fun c a => if a.catid ∈ cats1 then Cluster.add_fix c a Status.away else c)
        (promote cur)
      let c2 := Cluster.add_fix c1 f Status.home
      scanFX radius cutoff rest (CurrentItem.cluster c2) [] (used ++ [keyX f]) cats1
    else
      scanFX radius cutoff rest cur (pa ++ [f]) used cats

/-- Outer loop of `FXDataPool.find_clusters` (`find_crossings.py` lines
56-143). `cats_involved` is reset when a cluster is committed and threaded
through otherwise; the post-loop commit of lines 140-143 is unreachable
for the same reason as in the single-animal sweep. -/
def findClustersFXAux (radius cutoff : ℚ) :
    List Fix → List (String × ℚ) → List String → List Cluster → List Cluster
  | [], _used, _cats, clusters => clusters
  | f :: rest, used, cats, clusters =>
    if keyX f ∈ used then
      findClustersFXAux radius cutoff rest used cats clusters
    else
      match scanFX radius cutoff rest (CurrentItem.fix f) [] used cats with
      | (CurrentItem.cluster c, used', _cats') =>
          findClustersFXAux radius cutoff rest used' [] (clusters ++ [c])
      | (CurrentItem.fix _, used', cats') =>
          findClustersFXAux radius cutoff rest used' cats' clusters

/-- `FXDataPool.find_clusters` on a pool of fixes. -/
def findClustersFX (radius cutoff : ℚ) (fixes : List Fix) : List Cluster :=
  findClustersFXAux radius cutoff fixes [] [] []

/-- First-seen deduplication of a list of ids: the `catids`/`seen` loop
pattern of `find_crossings.py` lines 150-157 (and `DataPool.find_catids`).
Keeps the first occurrence of each id, in encounter order. -/
def firstSeen : List String → List String → List String
  | [], _seen => []
  | a :: rest, seen =>
    if a ∈ seen then firstSeen rest seen else a :: firstSeen rest (seen ++ [a])

/-- The comparison the source's `sorted(..., key=lambda fix: fix.time)`
realises; Python's sort is stable, as is `List.insertionSort`. -/
def timeLE (a b : Fix) : Prop := a.time ≤ b.time

instance : DecidableRel timeLE := fun a b => inferInstanceAs (Decidable (a.time ≤ b.time))

/-- A Crossing (`find_crossings.py`, class `Crossing`). The identity string
`'{strftime of first home fix}-{joined sorted catids}'` is modelled as the
pair of the raw timestamp and the sorted catid list. The image-legend
fields and the `calculate_averages` statistics (average distance, max
excursion, fidelity) are not modelled: no claim under check mentions
them. -/
structure Crossing where
  id : ℚ × List String
  home_fixes : List Fix
  away_fixes : List Fix
  all_fixes : List Fix
  catids : List String
  start_time : ℚ
  end_time : ℚ
  elapsed_time : ℚ
  x : ℚ
  y : ℚ
  closest_meetings : List (Fix × Fix)
  deriving DecidableEq

/-- `Crossing.find_closest_meeting` (`find_crossings.py` lines 347-378):
for each catid except the last, split the home fixes into query and field
lists, and scan all query-field pairs keeping a running minimum delay;
each strict improvement is pushed onto the front of the meeting list, and
the first three entries are kept. `sys.maxsize` is modelled as the top
element of `WithTop ℚ`. -/
def find_closest_meeting (catids : List String) (home_fixes : List Fix) :
    List (Fix × Fix) :=
  let step := fun (st : WithTop ℚ × List (Fix × Fix)) (query_catid : String) =>
    let query_fixes := home_fixes.filter (fun h => decide (h.catid = query_catid))
    let field_fixes := home_fixes.filter (fun h => decide (¬ h.catid = query_catid))
    query_fixes.foldl (fun st1 q =>
      field_fixes.foldl (fun st2 fld =>
        if ((Fix.delay_from_fix q fld : ℚ) : WithTop ℚ) < st2.1 then
          (((Fix.delay_from_fix q fld : ℚ) : WithTop ℚ), (q, fld) :: st2.2)
        else st2) st1) st
  ((catids.dropLast.foldl step ((⊤ : WithTop ℚ), [])).2).take 3

/-- `Crossing.__init__` (`find_crossings.py` lines 319-335): sort the three
fix lists by time, then recompute core data and the closest meetings. -/
def mkCrossing (crossingid : ℚ × List String)
    (home_fixes away_fixes all_fixes : List Fix) (catids : List String) : Crossing :=
  let hs := home_fixes.insertionSort timeLE
  let aws := away_fixes.insertionSort timeLE
  let alls := all_fixes.insertionSort timeLE
  { id := crossingid
    home_fixes := hs
    away_fixes := aws
    all_fixes := alls
    catids := catids
    start_time := ((hs.head?).map Fix.time).getD 0
    end_time := ((hs.getLast?).map Fix.time).getD 0
    elapsed_time := ((hs.getLast?).map Fix.time).getD 0 - ((hs.head?).map Fix.time).getD 0
    x := (hs.map Fix.x).sum / (hs.length : ℚ)
    y := (hs.map Fix.y).sum / (hs.length : ℚ)
    closest_meetings := find_closest_meeting catids hs }

/-- Lexicographic order on catid strings, as Python's `sorted` uses. -/
def catidLE (a b : String) : Prop := a ≤ b

instance : DecidableRel catidLE := fun a b => inferInstanceAs (Decidable (a ≤ b))

/-- One iteration of `FXDataPool.clusters_to_crossings` (`find_crossings.py`
lines 149-168): a committed cluster becomes a Crossing when the first-seen
list of catids of its full fix list has at least two entries; its identity
is the first home fix's timestamp paired with the sorted catid list. -/
def clusterToCrossingStep (crossings : List Crossing) (cluster : Cluster) : List Crossing :=
  let catids := firstSeen (cluster.all_fixes.map Fix.catid) []
  if catids.length < 2 then crossings
  else
    let sortedCatids := catids.insertionSort catidLE
    let crossingid := (((cluster.home_fixes.head?).map Fix.time).getD 0, sortedCatids)
    crossings ++ [mkCrossing crossingid cluster.home_fixes cluster.away_fixes
      cluster.all_fixes sortedCatids]

/-- `FXDataPool.clusters_to_crossings` (`find_crossings.py` lines 145-168). -/
def clusters_to_crossings (clusters : List Cluster) : List Crossing :=
  clusters.foldl clusterToCrossingStep []

/-- `FXDataPool.find_clusters` followed by `clusters_to_crossings`: the
full multi-animal pipeline on a pool of fixes. -/
def findCrossings (radius cutoff : ℚ) (fixes : List Fix) : List Crossing :=
  clusters_to_crossings (findClustersFX radius cutoff fixes)

/-- `FCTrail.return_cluster_by_id` (`find_clusters.py` lines 143-149): the
first cluster with the requested id, or the source's `False` sentinel,
modelled as `none`. -/
def return_cluster_by_id : List Cluster → ℚ → Option Cluster
  | [], _ => none
  | c :: rest, clusterid =>
    if c.id = clusterid then some c else return_cluster_by_id rest clusterid

/-- `FXDataPool.return_crossing_by_id` (`find_crossings.py` lines 170-176):
the first crossing with the requested id, or `none` for the source's
`False` sentinel. -/
def return_crossing_by_id : List Crossing → ℚ × List String → Option Crossing
  | [], _ => none
  | c :: rest, crossingid =>
    if c.id = crossingid then some c else return_crossing_by_id rest crossingid

/-- `Trail.order_by_time` (`common.py` lines 664-667) and
`DataPool.order_by_time` (lines 832-835): stable sort by timestamp. -/
def order_by_time (fixes : List Fix) : List Fix := fixes.insertionSort timeLE

/-- The shared shape of `Trail.remove_duplicates` (`common.py` lines
669-684) and `DataPool.remove_duplicates` (lines 887-904): walk the fix
list keeping a set of already-seen keys, drop a fix whose key was seen,
keep the first occurrence. -/
def remove_duplicates_by {κ : Type} [DecidableEq κ] (key : Fix → κ) :
    List Fix → List κ → List Fix
  | [], _seen => []
  | f :: rest, seen =>
    if key f ∈ seen then remove_duplicates_by key rest seen
    else f :: remove_duplicates_by key rest (seen ++ [key f])

/-- `Trail.remove_duplicates`: dedup key is the timestamp alone. -/
def Trail_remove_duplicates (fixes : List Fix) : List Fix :=
  remove_duplicates_by Fix.time fixes []

/-- `DataPool.remove_duplicates`: dedup key is the catid-timestamp pair. -/
def DataPool_remove_duplicates (fixes : List Fix) : List Fix :=
  remove_duplicates_by keyX fixes []

/-- A Survey (`match_survey_to_cluster.py`, class `Survey`), reduced to the
fields the cluster search reads: the averaged timestamp and location, and
the recorded major problems. Parsing and averaging of the raw survey
columns are out of scope. -/
structure Survey where
  time : ℚ
  x : ℚ
  y : ℚ
  major_problems : List String
  deriving DecidableEq

/-- `Survey.delay_from` (`match_survey_to_cluster.py` lines 267-280),
Cluster branch: zero inside the cluster's time window, otherwise the gap
to the violated endpoint. -/
def Survey.delay_from_cluster (s : Survey) (c : Cluster) : ℚ :=
  if s.time < c.start_time then c.start_time - s.time
  else if c.end_time < s.time then s.time - c.end_time
  else 0

/-- The closeness score of `SurveyPool.search_for_matching_clusters`
(`match_survey_to_cluster.py` line 122):
`(distance / radius) + (delay / time_cutoff)`. -/
noncomputable def survey_closeness (radius cutoff : ℚ) (s : Survey) (c : Cluster) : ℝ :=
  distance_from c.x c.y s.x s.y / (radius : ℝ) +
    ((Survey.delay_from_cluster s c : ℚ) : ℝ) / (cutoff : ℝ)

open Classical in
/-- The per-survey body of `SurveyPool.search_for_matching_clusters`
(`match_survey_to_cluster.py` lines 117-127): keep the clusters within
both absolute thresholds, ranked ascending by closeness. -/
noncomputable def search_for_matching_clusters (radius cutoff : ℚ)
    (clusters : List Cluster) (s : Survey) : List Cluster :=
  let kept := clusters.filter (fun c =>
    decide (distance_from c.x c.y s.x s.y ≤ (radius : ℝ) ∧
      Survey.delay_from_cluster s c ≤ cutoff))
  kept.insertionSort (fun c1 c2 =>
    survey_closeness radius cutoff s c1 ≤ survey_closeness radius cutoff s c2)

/-- The survey loop of `SurveyPool.search_for_matching_clusters`
(`match_survey_to_cluster.py` lines 109-127): a survey with major problems
is skipped, keeping its initial empty match list. -/
noncomputable def SurveyPool_search (radius cutoff : ℚ) (clusters : List Cluster)
    (surveys : List Survey) : List (Survey × List Cluster) :=
  surveys.map (fun s =>
    if s.major_problems = [] then (s, search_for_matching_clusters radius cutoff clusters s)
    else (s, []))

/-- The whodunit request (`find_whodunit.py`, `FWDataPool.__init__` plus the
request date assigned by the driver): a target location and time. -/
structure WQuery where
  time : ℚ
  x : ℚ
  y : ℚ

/-- A Match wrapper (`find_whodunit.py`, class `Match`). -/
structure WMatch where
  fix : Fix
  status : String
  closeness : ℝ
  distance : ℝ
  delay : ℚ

/-- The matching condition of `FWDataPool.find_matches` (`find_whodunit.py`
line 65): within the radius and within the time cutoff. The delay against
the pool is the point-versus-point branch of `Fix.delay_from`, the pool not
being a Cluster. -/
def whodunit_match_cond (radius cutoff : ℚ) (q : WQuery) (f : Fix) : Prop :=
  distance_from f.x f.y q.x q.y ≤ (radius : ℝ) ∧ |f.time - q.time| ≤ cutoff

/-- One Match record of `find_whodunit.py` (lines 66, 69): the wrapped fix
with its status string, closeness, distance and delay. -/
noncomputable def whodunit_entry (radius cutoff : ℚ) (q : WQuery) (status : String)
    (f : Fix) : WMatch :=
  ⟨f, status,
    distance_from f.x f.y q.x q.y / (radius : ℝ) +
      ((|f.time - q.time| : ℚ) : ℝ) / (cutoff : ℝ),
    distance_from f.x f.y q.x q.y, |f.time - q.time|⟩

open Classical in
/-- The loop body of `FWDataPool.find_matches` (`find_whodunit.py` lines
61-70): append the fix to the match list or to the close list. -/
noncomputable def whodunit_classify (radius cutoff : ℚ) (q : WQuery)
    (acc : List WMatch × List WMatch) (f : Fix) : List WMatch × List WMatch :=
  if whodunit_match_cond radius cutoff q f then
    (acc.1 ++ [whodunit_entry radius cutoff q "Match" f], acc.2)
  else
    (acc.1, acc.2 ++ [whodunit_entry radius cutoff q "Close" f])

/-- `FWDataPool.find_matches` (`find_whodunit.py` lines 55-73): classify
every fix as a match (within both thresholds) or a close miss, and sort
both lists ascending by closeness. -/
noncomputable def find_matches (radius cutoff : ℚ) (q : WQuery) (fixes : List Fix) :
    List WMatch × List WMatch :=
  let pair := fixes.foldl (whodunit_classify radius cutoff q) ([], [])
  (pair.1.insertionSort (fun a b => a.closeness ≤ b.closeness),
   pair.2.insertionSort (fun a b => a.closeness ≤ b.closeness))

/-- `math.degrees`. -/
noncomputable def degrees (x : ℝ) : ℝ := x * 180 / Real.pi

open Classical in
/-- `Fix.calculate_angle_and_distance` (`common.py` lines 602-643): the
quadrant-based piecewise arctangent, with the fixed additive epsilon 0.001
in each denominator; returns the pair (angle_from_center,
distance_from_center). -/
noncomputable def calculate_angle_and_distance (px py ox oy : ℝ) : ℝ × ℝ :=
  let d := Real.sqrt (|px - ox| ^ 2 + |py - oy| ^ 2)
  let angle :=
    if px ≥ ox ∧ py ≥ oy then
      degrees (Real.arctan ((px - ox) / ((py - oy) + 0.001)))
    else if px ≥ ox then
      90 + degrees (Real.arctan ((oy - py) / ((px - ox) + 0.001)))
    else if py ≤ oy then
      180 + degrees (Real.arctan ((ox - px) / ((oy - py) + 0.001)))
    else
      270 + degrees (Real.arctan ((py - oy) / ((ox - px) + 0.001)))
  (angle, d)

/-! Basic lemmas about the embedded operations. -/

/-- Bridge between the source's distance comparison and the rational
squared-distance test the sweeps use. -/
theorem distance_from_le_iff {x1 y1 x2 y2 r : ℚ} (hr : (0 : ℚ) ≤ r) :
    distance_from x1 y1 x2 y2 ≤ (r : ℝ) ↔ dist_sq x1 y1 x2 y2 ≤ r ^ 2 := by
  unfold distance_from dist_sq
  rw [show (|(x1 : ℝ) - (x2 : ℝ)| ^ 2 + |(y1 : ℝ) - (y2 : ℝ)| ^ 2) =
      (((x1 - x2) ^ 2 + (y1 - y2) ^ 2 : ℚ) : ℝ) by push_cast [sq_abs]; ring]
  rw [show ((r : ℝ)) = Real.sqrt ((r ^ 2 : ℚ) : ℝ) by
    push_cast
    rw [Real.sqrt_sq (by exact_mod_cast hr)]]
  rw [Real.sqrt_le_sqrt_iff (by positivity)]
  exact ⟨fun h => by exact_mod_cast h, fun h => by exact_mod_cast h⟩

theorem add_fix_home_home_fixes (c : Cluster) (f : Fix) :
    (Cluster.add_fix c f Status.home).home_fixes = c.home_fixes ++ [f] := rfl

theorem add_fix_home_away_fixes (c : Cluster) (f : Fix) :
    (Cluster.add_fix c f Status.home).away_fixes = c.away_fixes := rfl

theorem add_fix_home_all_fixes (c : Cluster) (f : Fix) :
    (Cluster.add_fix c f Status.home).all_fixes = c.all_fixes ++ [f] := rfl

theorem add_fix_away_home_fixes (c : Cluster) (f : Fix) :
    (Cluster.add_fix c f Status.away).home_fixes = c.home_fixes := rfl

theorem add_fix_away_away_fixes (c : Cluster) (f : Fix) :
    (Cluster.add_fix c f Status.away).away_fixes = c.away_fixes ++ [f] := rfl

theorem add_fix_away_all_fixes (c : Cluster) (f : Fix) :
    (Cluster.add_fix c f Status.away).all_fixes = c.all_fixes ++ [f] := rfl

theorem add_fix_away_x (c : Cluster) (f : Fix) :
    (Cluster.add_fix c f Status.away).x = c.x := rfl

theorem add_fix_away_y (c : Cluster) (f : Fix) :
    (Cluster.add_fix c f Status.away).y = c.y := rfl

theorem add_fix_away_start_time (c : Cluster) (f : Fix) :
    (Cluster.add_fix c f Status.away).start_time = c.start_time := rfl

theorem add_fix_away_end_time (c : Cluster) (f : Fix) :
    (Cluster.add_fix c f Status.away).end_time = c.end_time := rfl

theorem add_fix_home_x (c : Cluster) (f : Fix) :
    (Cluster.add_fix c f Status.home).x =
      ((c.home_fixes ++ [f]).map Fix.x).sum / (((c.home_fixes ++ [f]).length : ℚ)) := rfl

theorem add_fix_home_y (c : Cluster) (f : Fix) :
    (Cluster.add_fix c f Status.home).y =
      ((c.home_fixes ++ [f]).map Fix.y).sum / (((c.home_fixes ++ [f]).length : ℚ)) := rfl

theorem add_fix_home_end_time (c : Cluster) (f : Fix) :
    (Cluster.add_fix c f Status.home).end_time = f.time := by
  simp [Cluster.add_fix, Cluster.recalculate_core_data]

theorem add_fix_home_start_time (c : Cluster) (f : Fix) :
    (Cluster.add_fix c f Status.home).start_time =
      (((c.home_fixes ++ [f]).head?).map Fix.time).getD 0 := rfl

theorem mkCluster_home_fixes (f : Fix) : (mkCluster f).home_fixes = [f] := rfl

theorem mkCluster_away_fixes (f : Fix) : (mkCluster f).away_fixes = [] := rfl

theorem mkCluster_all_fixes (f : Fix) : (mkCluster f).all_fixes = [f] := rfl

theorem mkCluster_x (f : Fix) : (mkCluster f).x = f.x := by
  simp [mkCluster, Cluster.recalculate_core_data]

theorem mkCluster_y (f : Fix) : (mkCluster f).y = f.y := by
  simp [mkCluster, Cluster.recalculate_core_data]

theorem mkCluster_start_time (f : Fix) : (mkCluster f).start_time = f.time := rfl

theorem mkCluster_end_time (f : Fix) : (mkCluster f).end_time = f.time := by
  simp [mkCluster, Cluster.recalculate_core_data]

/-- Centroid invariant: the cluster's coordinates are the arithmetic means
of its home fixes' coordinates. -/
def centroidProp (c : Cluster) : Prop :=
  c.x = (c.home_fixes.map Fix.x).sum / (c.home_fixes.length : ℚ) ∧
  c.y = (c.home_fixes.map Fix.y).sum / (c.home_fixes.length : ℚ)

theorem centroidProp_mkCluster (f : Fix) : centroidProp (mkCluster f) := by
  constructor <;> simp [mkCluster, Cluster.recalculate_core_data]

theorem centroidProp_add_home (c : Cluster) (f : Fix) :
    centroidProp (Cluster.add_fix c f Status.home) := by
  constructor <;> rfl

theorem centroidProp_add_away (c : Cluster) (f : Fix) (h : centroidProp c) :
    centroidProp (Cluster.add_fix c f Status.away) := h

theorem centroidProp_add_any (c : Cluster) (f : Fix) (st : Status) (h : centroidProp c) :
    centroidProp (Cluster.add_fix c f st) := by
  cases st
  · exact centroidProp_add_home c f
  · exact h

/-! Claim C2: point-to-cluster delay. -/

/-- Claim C2 as stated is false on the code: `Fix.delay_from` against a
Cluster returns the absolute offset from the cluster's end time, not 0,
even when the point's time lies inside `[start_time, end_time]`. Concrete
input: a cluster with home fixes at times 0 and 100 (so its window is
`[0, 100]`) and a fix at time 10; the claim demands delay 0, the code
yields `|10 - 100| = 90`. -/
theorem fix_delay_from_cluster_counterexample :
    (Cluster.add_fix (mkCluster ⟨"a", "F1", 0, 0, 0⟩)
        ⟨"b", "F1", 100, 0, 0⟩ Status.home).start_time ≤ (10 : ℚ) ∧
    (10 : ℚ) ≤ (Cluster.add_fix (mkCluster ⟨"a", "F1", 0, 0, 0⟩)
        ⟨"b", "F1", 100, 0, 0⟩ Status.home).end_time ∧
    Fix.delay_from_cluster ⟨"p", "F1", 10, 0, 0⟩
        (Cluster.add_fix (mkCluster ⟨"a", "F1", 0, 0, 0⟩)
          ⟨"b", "F1", 100, 0, 0⟩ Status.home) = 90 := by
  refine ⟨?_, ?_, ?_⟩ <;>
    norm_num [Fix.delay_from_cluster, Cluster.add_fix, mkCluster,
      Cluster.recalculate_core_data]

/-- Claim C2 (amended): the zero-inside-window, nearer-endpoint rule holds
for the Survey-to-cluster delay (`Survey.delay_from`); the Fix-to-cluster
delay (`Fix.delay_from`) is instead always the absolute difference between
the point's time and the cluster's end time, also when the point's time
lies inside `[start_time, end_time]`. -/
theorem delay_from_cluster_spec (s : Survey) (f : Fix) (c : Cluster)
    (h : c.start_time ≤ c.end_time) :
    (c.start_time ≤ s.time ∧ s.time ≤ c.end_time → Survey.delay_from_cluster s c = 0) ∧
    (¬ (c.start_time ≤ s.time ∧ s.time ≤ c.end_time) →
      Survey.delay_from_cluster s c = min |s.time - c.start_time| |s.time - c.end_time|) ∧
    Fix.delay_from_cluster f c = |f.time - c.end_time| := by
  refine ⟨fun hin => ?_, fun hout => ?_, rfl⟩
  · rw [Survey.delay_from_cluster, if_neg (by linarith [hin.1]), if_neg (by linarith [hin.2])]
  · rw [Survey.delay_from_cluster]
    by_cases hlt : s.time < c.start_time
    · rw [if_pos hlt]
      rw [abs_of_nonpos (by linarith), abs_of_nonpos (by linarith)]
      rw [min_eq_left (by linarith)]
      ring
    · have hgt : c.end_time < s.time := by
        rcases not_and_or.mp hout with h1 | h2
        · exact absurd (le_of_not_lt hlt) h1
        · exact lt_of_not_le h2
      rw [if_neg hlt, if_pos hgt]
      rw [abs_of_nonneg (by linarith), abs_of_nonneg (by linarith)]
      rw [min_eq_right (by linarith)]

/-- Witness for `delay_from_cluster_spec` at a concrete survey (time 50),
fix (time 10) and cluster (window `[0, 100]`). -/
theorem delay_from_cluster_spec_witness :
    (Cluster.add_fix (mkCluster ⟨"a", "F1", 0, 0, 0⟩)
        ⟨"b", "F1", 100, 0, 0⟩ Status.home).start_time ≤
      (Cluster.add_fix (mkCluster ⟨"a", "F1", 0, 0, 0⟩)
        ⟨"b", "F1", 100, 0, 0⟩ Status.home).end_time ∧
    (((Cluster.add_fix (mkCluster ⟨"a", "F1", 0, 0, 0⟩)
        ⟨"b", "F1", 100, 0, 0⟩ Status.home).start_time ≤ (Survey.mk 50 0 0 []).time ∧
      (Survey.mk 50 0 0 []).time ≤ (Cluster.add_fix (mkCluster ⟨"a", "F1", 0, 0, 0⟩)
        ⟨"b", "F1", 100, 0, 0⟩ Status.home).end_time →
        Survey.delay_from_cluster (Survey.mk 50 0 0 [])
          (Cluster.add_fix (mkCluster ⟨"a", "F1", 0, 0, 0⟩)
            ⟨"b", "F1", 100, 0, 0⟩ Status.home) = 0) ∧
      (¬ ((Cluster.add_fix (mkCluster ⟨"a", "F1", 0, 0, 0⟩)
        ⟨"b", "F1", 100, 0, 0⟩ Status.home).start_time ≤ (Survey.mk 50 0 0 []).time ∧
      (Survey.mk 50 0 0 []).time ≤ (Cluster.add_fix (mkCluster ⟨"a", "F1", 0, 0, 0⟩)
        ⟨"b", "F1", 100, 0, 0⟩ Status.home).end_time) →
        Survey.delay_from_cluster (Survey.mk 50 0 0 [])
          (Cluster.add_fix (mkCluster ⟨"a", "F1", 0, 0, 0⟩)
            ⟨"b", "F1", 100, 0, 0⟩ Status.home) =
          min |(Survey.mk 50 0 0 []).time - (Cluster.add_fix (mkCluster ⟨"a", "F1", 0, 0, 0⟩)
            ⟨"b", "F1", 100, 0, 0⟩ Status.home).start_time|
            |(Survey.mk 50 0 0 []).time - (Cluster.add_fix (mkCluster ⟨"a", "F1", 0, 0, 0⟩)
            ⟨"b", "F1", 100, 0, 0⟩ Status.home).end_time|) ∧
      Fix.delay_from_cluster ⟨"p", "F1", 10, 0, 0⟩
        (Cluster.add_fix (mkCluster ⟨"a", "F1", 0, 0, 0⟩)
          ⟨"b", "F1", 100, 0, 0⟩ Status.home) =
        |(Fix.mk "p" "F1" 10 0 0).time - (Cluster.add_fix (mkCluster ⟨"a", "F1", 0, 0, 0⟩)
          ⟨"b", "F1", 100, 0, 0⟩ Status.home).end_time|) :=
  ⟨by norm_num [Cluster.add_fix, mkCluster, Cluster.recalculate_core_data],
   delay_from_cluster_spec (Survey.mk 50 0 0 []) ⟨"p", "F1", 10, 0, 0⟩ _
     (by norm_num [Cluster.add_fix, mkCluster, Cluster.recalculate_core_data])⟩

/-! Claim C7: totality of the angle computation. -/

theorem degrees_arctan_lt (t : ℝ) : degrees (Real.arctan t) < 90 := by
  unfold degrees
  rw [div_lt_iff Real.pi_pos]
  nlinarith [Real.arctan_lt_pi_div_two t, Real.pi_pos]

theorem neg_lt_degrees_arctan (t : ℝ) : -90 < degrees (Real.arctan t) := by
  unfold degrees
  rw [lt_div_iff Real.pi_pos]
  nlinarith [Real.neg_pi_div_two_lt_arctan t, Real.pi_pos]

theorem degrees_arctan_nonneg {t : ℝ} (h : 0 ≤ t) : 0 ≤ degrees (Real.arctan t) := by
  unfold degrees
  have h1 : 0 ≤ Real.arctan t := by
    have := Real.arctan_strictMono.monotone h
    rwa [Real.arctan_zero] at this
  positivity

/-- Claim C7: the angle-and-distance computation is total. In each quadrant
branch the denominator is a nonnegative difference plus the fixed epsilon
0.001, hence strictly positive (so no division by zero can occur), and the
resulting angle always lies in `[0, 360)` degrees. -/
theorem angle_and_distance_total (px py ox oy : ℝ) :
    (px ≥ ox ∧ py ≥ oy → 0 < (py - oy) + 0.001) ∧
    (¬ (px ≥ ox ∧ py ≥ oy) ∧ px ≥ ox → 0 < (px - ox) + 0.001) ∧
    (¬ (px ≥ ox ∧ py ≥ oy) ∧ ¬ px ≥ ox ∧ py ≤ oy → 0 < (oy - py) + 0.001) ∧
    (¬ (px ≥ ox ∧ py ≥ oy) ∧ ¬ px ≥ ox ∧ ¬ py ≤ oy → 0 < (ox - px) + 0.001) ∧
    0 ≤ (calculate_angle_and_distance px py ox oy).1 ∧
    (calculate_angle_and_distance px py ox oy).1 < 360 := by
  have hq1 : px ≥ ox ∧ py ≥ oy → 0 < (py - oy) + 0.001 := fun h => by
    have := h.2; norm_num; linarith
  have hq2 : ¬ (px ≥ ox ∧ py ≥ oy) ∧ px ≥ ox → 0 < (px - ox) + 0.001 := fun h => by
    have := h.2; norm_num; linarith
  have hq3 : ¬ (px ≥ ox ∧ py ≥ oy) ∧ ¬ px ≥ ox ∧ py ≤ oy → 0 < (oy - py) + 0.001 :=
    fun h => by have := h.2.2; norm_num; linarith
  have hq4 : ¬ (px ≥ ox ∧ py ≥ oy) ∧ ¬ px ≥ ox ∧ ¬ py ≤ oy → 0 < (ox - px) + 0.001 :=
    fun h => by have := lt_of_not_le h.2.1; norm_num; linarith
  refine ⟨hq1, hq2, hq3, hq4, ?_, ?_⟩ <;>
  · unfold calculate_angle_and_distance
    split_ifs with h1 h2 h3
    all_goals simp only
    · first
      | exact degrees_arctan_nonneg
          (div_nonneg (by linarith [h1.1]) (le_of_lt (hq1 h1)))
      | linarith [degrees_arctan_lt ((px - ox) / ((py - oy) + 0.001))]
    · first
      | linarith [neg_lt_degrees_arctan ((oy - py) / ((px - ox) + 0.001))]
      | linarith [degrees_arctan_lt ((oy - py) / ((px - ox) + 0.001))]
    · first
      | linarith [neg_lt_degrees_arctan ((ox - px) / ((oy - py) + 0.001))]
      | linarith [degrees_arctan_lt ((ox - px) / ((oy - py) + 0.001))]
    · first
      | linarith [neg_lt_degrees_arctan ((py - oy) / ((ox - px) + 0.001))]
      | linarith [degrees_arctan_lt ((py - oy) / ((ox - px) + 0.001))]

/-- Witness for `angle_and_distance_total` at the concrete point (1, 1)
against center (0, 0), discharging the quadrant-1 hypothesis. -/
theorem angle_and_distance_total_witness :
    0 ≤ (calculate_angle_and_distance 1 1 0 0).1 ∧
    (calculate_angle_and_distance 1 1 0 0).1 < 360 ∧
    (0 : ℝ) < ((1 : ℝ) - 0) + 0.001 :=
  ⟨(angle_and_distance_total 1 1 0 0).2.2.2.2.1,
   (angle_and_distance_total 1 1 0 0).2.2.2.2.2,
   (angle_and_distance_total 1 1 0 0).1 (by norm_num)⟩

/-! Claim C8: idempotence of deduplication and ordering. -/

theorem remove_duplicates_by_nodup {κ : Type} [DecidableEq κ] (key : Fix → κ) :
    ∀ (l : List Fix) (seen : List κ),
      ((remove_duplicates_by key l seen).map key).Nodup ∧
      ∀ k ∈ (remove_duplicates_by key l seen).map key, k ∉ seen := by
  intro l
  induction l with
  | nil => intro seen; simp [remove_duplicates_by]
  | cons f rest ih =>
    intro seen
    by_cases h : key f ∈ seen
    · simpa [remove_duplicates_by, h] using ih seen
    · have ihr := ih (seen ++ [key f])
      simp only [remove_duplicates_by, if_neg h, List.map_cons, List.nodup_cons]
      refine ⟨⟨fun hmem => ?_, ihr.1⟩, fun k hk => ?_⟩
      · exact absurd (by simp) (ihr.2 (key f) hmem)
      · rcases List.mem_cons.mp hk with hk1 | hk2
        · rw [hk1]; exact h
        · intro hks
          exact (ihr.2 k hk2) (by simp [hks])

theorem remove_duplicates_by_eq_self {κ : Type} [DecidableEq κ] (key : Fix → κ) :
    ∀ (l : List Fix) (seen : List κ), (l.map key).Nodup →
      (∀ k ∈ l.map key, k ∉ seen) → remove_duplicates_by key l seen = l := by
  intro l
  induction l with
  | nil => intro seen _ _; rfl
  | cons f rest ih =>
    intro seen hnd hdisj
    simp only [List.map_cons, List.nodup_cons] at hnd
    have hf : key f ∉ seen := hdisj (key f) (by simp)
    rw [remove_duplicates_by, if_neg hf]
    congr 1
    refine ih (seen ++ [key f]) hnd.2 (fun k hk hks => ?_)
    rcases List.mem_append.mp hks with hs | hs
    · exact hdisj k (by simp [hk]) hs
    · rw [List.mem_singleton.mp hs] at hk
      exact hnd.1 hk

/-- Claim C8: duplicate removal — which drops a fix whose dedup key
(timestamp for a `Trail`, catid-timestamp pair for a `DataPool`) was
already seen, keeping the first occurrence — is idempotent, and ordering
by time leaves an already time-ordered list unchanged. -/
theorem dedup_order_idempotent :
    (∀ fixes : List Fix,
      Trail_remove_duplicates (Trail_remove_duplicates fixes) =
        Trail_remove_duplicates fixes) ∧
    (∀ fixes : List Fix,
      DataPool_remove_duplicates (DataPool_remove_duplicates fixes) =
        DataPool_remove_duplicates fixes) ∧
    (∀ fixes : List Fix, fixes.Sorted timeLE → order_by_time fixes = fixes) := by
  refine ⟨fun fixes => ?_, fun fixes => ?_, fun fixes h => ?_⟩
  · exact remove_duplicates_by_eq_self Fix.time _ []
      (remove_duplicates_by_nodup Fix.time fixes []).1 (by simp)
  · exact remove_duplicates_by_eq_self keyX _ []
      (remove_duplicates_by_nodup keyX fixes []).1 (by simp)
  · exact h.insertionSort_eq

/-- Witness for `dedup_order_idempotent`: the ordering clause applied to a
concrete sorted two-fix list, plus the dedup clauses at that list. -/
theorem dedup_order_idempotent_witness :
    ([⟨"a", "F1", 0, 0, 0⟩, ⟨"b", "F1", 1, 0, 0⟩] : List Fix).Sorted timeLE ∧
    order_by_time [⟨"a", "F1", 0, 0, 0⟩, ⟨"b", "F1", 1, 0, 0⟩] =
      [⟨"a", "F1", 0, 0, 0⟩, ⟨"b", "F1", 1, 0, 0⟩] := by
  have hs : ([⟨"a", "F1", 0, 0, 0⟩, ⟨"b", "F1", 1, 0, 0⟩] : List Fix).Sorted timeLE := by
    simp only [List.sorted_cons, List.mem_singleton, List.sorted_singleton]
    refine ⟨fun b hb => ?_, by simp⟩
    simp only [List.mem_singleton] at hb
    rw [hb]
    show (0 : ℚ) ≤ 1
    norm_num
  exact ⟨hs, dedup_order_idempotent.2.2 _ hs⟩

/-! Claim C9: lookup by id returns a sentinel, never raises. -/

theorem return_cluster_by_id_none_iff :
    ∀ (clusters : List Cluster) (cid : ℚ),
      return_cluster_by_id clusters cid = none ↔ ∀ c ∈ clusters, c.id ≠ cid := by
  intro clusters cid
  induction clusters with
  | nil => simp [return_cluster_by_id]
  | cons c rest ih =>
    by_cases h : c.id = cid
    · simp [return_cluster_by_id, h]
    · simp [return_cluster_by_id, h, ih]

theorem return_cluster_by_id_some :
    ∀ (clusters : List Cluster) (cid : ℚ) (c : Cluster),
      return_cluster_by_id clusters cid = some c → c ∈ clusters ∧ c.id = cid := by
  intro clusters cid
  induction clusters with
  | nil => intro c h; simp [return_cluster_by_id] at h
  | cons a rest ih =>
    intro c h
    by_cases ha : a.id = cid
    · rw [return_cluster_by_id, if_pos ha] at h
      obtain rfl : a = c := by injection h
      exact ⟨by simp, ha⟩
    · rw [return_cluster_by_id, if_neg ha] at h
      obtain ⟨h1, h2⟩ := ih c h
      exact ⟨by simp [h1], h2⟩

theorem return_cluster_by_id_first :
    ∀ (l1 : List Cluster) (c : Cluster) (l2 : List Cluster) (cid : ℚ),
      c.id = cid → (∀ c' ∈ l1, c'.id ≠ cid) →
      return_cluster_by_id (l1 ++ c :: l2) cid = some c := by
  intro l1
  induction l1 with
  | nil => intro c l2 cid hc _; simp [return_cluster_by_id, hc]
  | cons a l1 ih =>
    intro c l2 cid hc hnone
    rw [List.cons_append, return_cluster_by_id, if_neg (hnone a (by simp))]
    exact ih c l2 cid hc (fun c' hc' => hnone c' (by simp [hc']))

theorem return_crossing_by_id_none_iff :
    ∀ (crossings : List Crossing) (cid : ℚ × List String),
      return_crossing_by_id crossings cid = none ↔ ∀ c ∈ crossings, c.id ≠ cid := by
  intro crossings cid
  induction crossings with
  | nil => simp [return_crossing_by_id]
  | cons c rest ih =>
    by_cases h : c.id = cid
    · simp [return_crossing_by_id, h]
    · simp [return_crossing_by_id, h, ih]

theorem return_crossing_by_id_some :
    ∀ (crossings : List Crossing) (cid : ℚ × List String) (c : Crossing),
      return_crossing_by_id crossings cid = some c → c ∈ crossings ∧ c.id = cid := by
  intro crossings cid
  induction crossings with
  | nil => intro c h; simp [return_crossing_by_id] at h
  | cons a rest ih =>
    intro c h
    by_cases ha : a.id = cid
    · rw [return_crossing_by_id, if_pos ha] at h
      obtain rfl : a = c := by injection h
      exact ⟨by simp, ha⟩
    · rw [return_crossing_by_id, if_neg ha] at h
      obtain ⟨h1, h2⟩ := ih c h
      exact ⟨by simp [h1], h2⟩

theorem return_crossing_by_id_first :
    ∀ (l1 : List Crossing) (c : Crossing) (l2 : List Crossing) (cid : ℚ × List String),
      c.id = cid → (∀ c' ∈ l1, c'.id ≠ cid) →
      return_crossing_by_id (l1 ++ c :: l2) cid = some c := by
  intro l1
  induction l1 with
  | nil => intro c l2 cid hc _; simp [return_crossing_by_id, hc]
  | cons a l1 ih =>
    intro c l2 cid hc hnone
    rw [List.cons_append, return_crossing_by_id, if_neg (hnone a (by simp))]
    exact ih c l2 cid hc (fun c' hc' => hnone c' (by simp [hc']))

/-- Claim C9: for any collection of committed clusters (or crossings) and
any requested id, the lookup returns the first element whose id matches if
one exists, and otherwise the sentinel `none` (the source's `False`),
without raising. -/
theorem return_by_id_spec :
    (∀ (clusters : List Cluster) (cid : ℚ),
      (return_cluster_by_id clusters cid = none ↔ ∀ c ∈ clusters, c.id ≠ cid) ∧
      (∀ c, return_cluster_by_id clusters cid = some c → c ∈ clusters ∧ c.id = cid) ∧
      (∀ (l1 : List Cluster) (c : Cluster) (l2 : List Cluster),
        clusters = l1 ++ c :: l2 → c.id = cid → (∀ c' ∈ l1, c'.id ≠ cid) →
        return_cluster_by_id clusters cid = some c)) ∧
    (∀ (crossings : List Crossing) (cid : ℚ × List String),
      (return_crossing_by_id crossings cid = none ↔ ∀ c ∈ crossings, c.id ≠ cid) ∧
      (∀ c, return_crossing_by_id crossings cid = some c → c ∈ crossings ∧ c.id = cid) ∧
      (∀ (l1 : List Crossing) (c : Crossing) (l2 : List Crossing),
        crossings = l1 ++ c :: l2 → c.id = cid → (∀ c' ∈ l1, c'.id ≠ cid) →
        return_crossing_by_id crossings cid = some c)) := by
  constructor
  · intro clusters cid
    refine ⟨return_cluster_by_id_none_iff clusters cid,
      return_cluster_by_id_some clusters cid, ?_⟩
    intro l1 c l2 heq hc hnone
    rw [heq]
    exact return_cluster_by_id_first l1 c l2 cid hc hnone
  · intro crossings cid
    refine ⟨return_crossing_by_id_none_iff crossings cid,
      return_crossing_by_id_some crossings cid, ?_⟩
    intro l1 c l2 heq hc hnone
    rw [heq]
    exact return_crossing_by_id_first l1 c l2 cid hc hnone

/-- Witness for `return_by_id_spec` on a concrete one-cluster list: id 5 is
found, id 7 yields the sentinel. -/
theorem return_by_id_spec_witness :
    return_cluster_by_id [mkCluster ⟨"a", "F1", 5, 0, 0⟩] 5 =
      some (mkCluster ⟨"a", "F1", 5, 0, 0⟩) ∧
    return_cluster_by_id [mkCluster ⟨"a", "F1", 5, 0, 0⟩] 7 = none := by
  constructor
  · exact (return_by_id_spec.1 [mkCluster ⟨"a", "F1", 5, 0, 0⟩] 5).2.2
      [] (mkCluster ⟨"a", "F1", 5, 0, 0⟩) [] rfl rfl (by simp)
  · refine ((return_by_id_spec.1 [mkCluster ⟨"a", "F1", 5, 0, 0⟩] 7).1).mpr ?_
    intro c hc
    rw [List.mem_singleton.mp hc]
    show (5 : ℚ) ≠ 7
    norm_num

/-! Claim C6: survey-to-cluster matching. -/

open Classical in
/-- Claim C6: for every valid survey (no major problems), the cluster
search returns exactly those clusters whose distance from the survey is at
most the radius and whose delay from the survey is at most the time
cutoff, sorted ascending by
`closeness = distance / radius + delay / time_cutoff`; a survey with major
problems keeps its empty match list. The positivity hypotheses reflect
that the source would divide by zero otherwise. -/
theorem survey_matching_spec (radius cutoff : ℚ) (clusters : List Cluster)
    (surveys : List Survey) (hr : 0 < radius) (ht : 0 < cutoff) :
    ∀ p ∈ SurveyPool_search radius cutoff clusters surveys,
      p.1 ∈ surveys ∧
      (¬ p.1.major_problems = [] → p.2 = []) ∧
      (p.1.major_problems = [] →
        (∀ c, c ∈ p.2 ↔ c ∈ clusters ∧
          distance_from c.x c.y p.1.x p.1.y ≤ (radius : ℝ) ∧
          Survey.delay_from_cluster p.1 c ≤ cutoff) ∧
        p.2.Perm (clusters.filter (fun c =>
          decide (distance_from c.x c.y p.1.x p.1.y ≤ (radius : ℝ) ∧
            Survey.delay_from_cluster p.1 c ≤ cutoff))) ∧
        p.2.Sorted (fun c1 c2 =>
          survey_closeness radius cutoff p.1 c1 ≤ survey_closeness radius cutoff p.1 c2)) := by
  intro p hp
  rcases List.mem_map.mp hp with ⟨s, hs, heq⟩
  by_cases hmp : s.major_problems = []
  · rw [if_pos hmp] at heq
    subst heq
    refine ⟨hs, fun hcon => absurd hmp hcon, fun _ => ?_⟩
    show _ ∧ (search_for_matching_clusters radius cutoff clusters s).Perm _ ∧ _
    have hperm : (search_for_matching_clusters radius cutoff clusters s).Perm
        (clusters.filter (fun c =>
          decide (distance_from c.x c.y s.x s.y ≤ (radius : ℝ) ∧
            Survey.delay_from_cluster s c ≤ cutoff))) :=
      List.perm_insertionSort _ _
    refine ⟨fun c => ?_, hperm, ?_⟩
    · rw [hperm.mem_iff, List.mem_filter, decide_eq_true_eq]
    · haveI h1 : IsTotal Cluster (fun c1 c2 =>
          survey_closeness radius cutoff s c1 ≤ survey_closeness radius cutoff s c2) :=
        ⟨fun a b => le_total _ _⟩
      haveI h2 : IsTrans Cluster (fun c1 c2 =>
          survey_closeness radius cutoff s c1 ≤ survey_closeness radius cutoff s c2) :=
        ⟨fun _ _ _ hab hbc => le_trans hab hbc⟩
      exact List.sorted_insertionSort _ _
  · rw [if_neg hmp] at heq
    subst heq
    exact ⟨hs, fun _ => rfl, fun hcon => absurd hcon hmp⟩

/-- Witness for `survey_matching_spec` on a concrete pool: one cluster
around the origin, one valid survey at the origin. -/
theorem survey_matching_spec_witness :
    (0 : ℚ) < 200 ∧ (0 : ℚ) < 1000 ∧
    ∀ p ∈ SurveyPool_search 200 1000
        [Cluster.add_fix (mkCluster ⟨"a", "F1", 0, 0, 0⟩) ⟨"b", "F1", 10, 0, 0⟩ Status.home]
        [Survey.mk 5 0 0 []],
      p.1 ∈ [Survey.mk 5 0 0 []] ∧
      (¬ p.1.major_problems = [] → p.2 = []) ∧
      (p.1.major_problems = [] →
        (∀ c, c ∈ p.2 ↔
          c ∈ [Cluster.add_fix (mkCluster ⟨"a", "F1", 0, 0, 0⟩)
                ⟨"b", "F1", 10, 0, 0⟩ Status.home] ∧
          distance_from c.x c.y p.1.x p.1.y ≤ ((200 : ℚ) : ℝ) ∧
          Survey.delay_from_cluster p.1 c ≤ 1000) ∧
        p.2.Perm ([Cluster.add_fix (mkCluster ⟨"a", "F1", 0, 0, 0⟩)
            ⟨"b", "F1", 10, 0, 0⟩ Status.home].filter (fun c =>
          decide (distance_from c.x c.y p.1.x p.1.y ≤ ((200 : ℚ) : ℝ) ∧
            Survey.delay_from_cluster p.1 c ≤ 1000))) ∧
        p.2.Sorted (fun c1 c2 =>
          survey_closeness 200 1000 p.1 c1 ≤ survey_closeness 200 1000 p.1 c2)) :=
  ⟨by norm_num, by norm_num,
   survey_matching_spec 200 1000 _ _ (by norm_num) (by norm_num)⟩

/-! Claim C10: the whodunit match search. -/

open Classical in
theorem whodunit_foldl (radius cutoff : ℚ) (q : WQuery) :
    ∀ (fixes : List Fix) (acc : List WMatch × List WMatch),
      fixes.foldl (whodunit_classify radius cutoff q) acc =
        (acc.1 ++ (fixes.filter (fun f =>
            decide (whodunit_match_cond radius cutoff q f))).map
            (whodunit_entry radius cutoff q "Match"),
         acc.2 ++ (fixes.filter (fun f =>
            decide (¬ whodunit_match_cond radius cutoff q f))).map
            (whodunit_entry radius cutoff q "Close")) := by
  intro fixes
  induction fixes with
  | nil => intro acc; simp
  | cons f fs ih =>
    intro acc
    by_cases hc : whodunit_match_cond radius cutoff q f
    · simp [whodunit_classify, hc, ih, List.filter_cons]
    · simp [whodunit_classify, hc, ih, List.filter_cons]

open Classical in
/-- Claim C10: every fix in the whodunit pool is classified into exactly
one of the two result lists — `matches` when it is within both the radius
and the time cutoff, `close` otherwise, so no fix is dropped — and both
lists are sorted ascending by closeness. The positivity hypotheses reflect
that the source would divide by zero otherwise. -/
theorem whodunit_partition_sorted (radius cutoff : ℚ) (q : WQuery) (fixes : List Fix)
    (hr : 0 < radius) (ht : 0 < cutoff) :
    ((find_matches radius cutoff q fixes).1.map WMatch.fix).Perm
      (fixes.filter (fun f => decide (whodunit_match_cond radius cutoff q f))) ∧
    ((find_matches radius cutoff q fixes).2.map WMatch.fix).Perm
      (fixes.filter (fun f => decide (¬ whodunit_match_cond radius cutoff q f))) ∧
    (((find_matches radius cutoff q fixes).1.map WMatch.fix) ++
      ((find_matches radius cutoff q fixes).2.map WMatch.fix)).Perm fixes ∧
    (find_matches radius cutoff q fixes).1.Sorted (fun a b => a.closeness ≤ b.closeness) ∧
    (find_matches radius cutoff q fixes).2.Sorted (fun a b => a.closeness ≤ b.closeness) ∧
    (∀ m ∈ (find_matches radius cutoff q fixes).1, m.status = "Match") ∧
    (∀ m ∈ (find_matches radius cutoff q fixes).2, m.status = "Close") := by
  have hfold := whodunit_foldl radius cutoff q fixes ([], [])
  have hm : (find_matches radius cutoff q fixes).1 =
      ((fixes.filter (fun f => decide (whodunit_match_cond radius cutoff q f))).map
        (whodunit_entry radius cutoff q "Match")).insertionSort
        (fun a b => a.closeness ≤ b.closeness) := by
    show ((fixes.foldl (whodunit_classify radius cutoff q) ([], [])).1.insertionSort _) = _
    rw [hfold]
    simp
  have hc : (find_matches radius cutoff q fixes).2 =
      ((fixes.filter (fun f => decide (¬ whodunit_match_cond radius cutoff q f))).map
        (whodunit_entry radius cutoff q "Close")).insertionSort
        (fun a b => a.closeness ≤ b.closeness) := by
    show ((fixes.foldl (whodunit_classify radius cutoff q) ([], [])).2.insertionSort _) = _
    rw [hfold]
    simp
  haveI ht1 : IsTotal WMatch (fun a b : WMatch => a.closeness ≤ b.closeness) :=
    ⟨fun a b => le_total _ _⟩
  haveI ht2 : IsTrans WMatch (fun a b : WMatch => a.closeness ≤ b.closeness) :=
    ⟨fun _ _ _ hab hbc => le_trans hab hbc⟩
  have hfix : ∀ (st : String) (f : Fix), (whodunit_entry radius cutoff q st f).fix = f :=
    fun _ _ => rfl
  have hperm1 : ((find_matches radius cutoff q fixes).1.map WMatch.fix).Perm
      (fixes.filter (fun f => decide (whodunit_match_cond radius cutoff q f))) := by
    rw [hm]
    refine ((List.perm_insertionSort _ _).map WMatch.fix).trans ?_
    rw [List.map_map]
    rw [show (WMatch.fix ∘ whodunit_entry radius cutoff q "Match") = id from rfl, List.map_id]
  have hperm2 : ((find_matches radius cutoff q fixes).2.map WMatch.fix).Perm
      (fixes.filter (fun f => decide (¬ whodunit_match_cond radius cutoff q f))) := by
    rw [hc]
    refine ((List.perm_insertionSort _ _).map WMatch.fix).trans ?_
    rw [List.map_map]
    rw [show (WMatch.fix ∘ whodunit_entry radius cutoff q "Close") = id from rfl, List.map_id]
  refine ⟨hperm1, hperm2, ?_, ?_, ?_, ?_, ?_⟩
  · refine (hperm1.append hperm2).trans ?_
    have := List.filter_append_perm
      (fun f => decide (whodunit_match_cond radius cutoff q f)) fixes
    refine List.Perm.trans ?_ this
    refine List.Perm.append (List.Perm.refl _) ?_
    have hnot : (fun f => decide (¬ whodunit_match_cond radius cutoff q f)) =
        (fun f => ! decide (whodunit_match_cond radius cutoff q f)) := by
      funext f
      simp [decide_not]
    rw [hnot]
  · rw [hm]; exact List.sorted_insertionSort _ _
  · rw [hc]; exact List.sorted_insertionSort _ _
  · intro m hmem
    rw [hm] at hmem
    rw [List.mem_insertionSort] at hmem
    rcases List.mem_map.mp hmem with ⟨f, _, hf⟩
    rw [← hf]
    rfl
  · intro m hmem
    rw [hc] at hmem
    rw [List.mem_insertionSort] at hmem
    rcases List.mem_map.mp hmem with ⟨f, _, hf⟩
    rw [← hf]
    rfl

/-- Witness for `whodunit_partition_sorted` at a concrete query and a
one-fix pool. -/
theorem whodunit_partition_sorted_witness :
    (0 : ℚ) < 200 ∧ (0 : ℚ) < 1000 ∧
    ((find_matches 200 1000 ⟨0, 0, 0⟩ [⟨"a", "F1", 0, 0, 0⟩]).1.map WMatch.fix ++
      (find_matches 200 1000 ⟨0, 0, 0⟩ [⟨"a", "F1", 0, 0, 0⟩]).2.map WMatch.fix).Perm
      [⟨"a", "F1", 0, 0, 0⟩] :=
  ⟨by norm_num, by norm_num,
   (whodunit_partition_sorted 200 1000 ⟨0, 0, 0⟩ [⟨"a", "F1", 0, 0, 0⟩]
     (by norm_num) (by norm_num)).2.2.1⟩

/-! Invariants of the single-animal sweep. -/

/-- The home fixes an item would contribute: a bare fix is its own would-be
first home fix, a promoted cluster contributes its home list. -/
def curHomes : CurrentItem → List Fix
  | CurrentItem.fix f => [f]
  | CurrentItem.cluster c => c.home_fixes

theorem foldl_add_away_home_fixes :
    ∀ (pa : List Fix) (c : Cluster),
      (pa.foldl (fun c a => Cluster.add_fix c a Status.away) c).home_fixes =
        c.home_fixes := by
  intro pa
  induction pa with
  | nil => intro c; rfl
  | cons a pa ih => intro c; rw [List.foldl_cons, ih, add_fix_away_home_fixes]

theorem promote_home_fixes (cur : CurrentItem) :
    (promote cur).home_fixes = curHomes cur := by
  cases cur with
  | fix f => rw [promote, mkCluster_home_fixes]; rfl
  | cluster c => rfl

/-- Characterisation of one forward scan of the single-animal sweep: the
used set grows exactly by the times of the matched fixes, which are drawn
from the scanned worklist, were not yet used and are pairwise distinct; the
scan either leaves the current item untouched (no match) or returns a
promoted cluster whose home list is the current item's home list followed
by the matched fixes, and which satisfies the centroid invariant. -/
theorem scanFC_spec (radius cutoff : ℚ) :
    ∀ (rest : List Fix) (cur : CurrentItem) (pa : List Fix) (used : List ℚ),
      ∃ matched : List Fix,
        (scanFC radius cutoff rest cur pa used).2 = used ++ matched.map Fix.time ∧
        (∀ g ∈ matched, g ∈ rest ∧ g.time ∉ used) ∧
        (matched.map Fix.time).Nodup ∧
        ((scanFC radius cutoff rest cur pa used).1 = cur ∧ matched = [] ∨
          ∃ c', (scanFC radius cutoff rest cur pa used).1 = CurrentItem.cluster c' ∧
            c'.home_fixes = curHomes cur ++ matched ∧ matched ≠ [] ∧ centroidProp c') := by
  intro rest
  induction rest with
  | nil =>
    intro cur pa used
    exact ⟨[], by simp [scanFC], by simp, by simp, Or.inl ⟨rfl, rfl⟩⟩
  | cons f rs ih =>
    intro cur pa used
    by_cases h1 : f.time ∈ used
    · have heq : scanFC radius cutoff (f :: rs) cur pa used =
          scanFC radius cutoff rs cur pa used := by
        rw [scanFC, if_pos h1]
      obtain ⟨m, hm1, hm2, hm3, hm4⟩ := ih cur pa used
      exact ⟨m, by rw [heq]; exact hm1,
        fun g hg => ⟨List.mem_cons_of_mem f (hm2 g hg).1, (hm2 g hg).2⟩, hm3,
        by rw [heq]; exact hm4⟩
    · by_cases h2 : cutoff < Fix.delay_from_item f cur
      · have heq : scanFC radius cutoff (f :: rs) cur pa used = (cur, used) := by
          rw [scanFC, if_neg h1, if_pos h2]
        exact ⟨[], by rw [heq]; simp, by simp, by simp, Or.inl ⟨by rw [heq], rfl⟩⟩
      · by_cases h3 : Fix.dist_sq_from_item f cur ≤ radius ^ 2
        · have heq : scanFC radius cutoff (f :: rs) cur pa used =
              scanFC radius cutoff rs
                (CurrentItem.cluster (Cluster.add_fix
                  (pa.foldl (fun c a => Cluster.add_fix c a Status.away) (promote cur))
                  f Status.home)) [] (used ++ [f.time]) := by
            rw [scanFC, if_neg h1, if_neg h2, if_pos h3]
          obtain ⟨m, hm1, hm2, hm3, hm4⟩ := ih
            (CurrentItem.cluster (Cluster.add_fix
              (pa.foldl (fun c a => Cluster.add_fix c a Status.away) (promote cur))
              f Status.home)) [] (used ++ [f.time])
          have hc2homes : (Cluster.add_fix
              (pa.foldl (fun c a => Cluster.add_fix c a Status.away) (promote cur))
              f Status.home).home_fixes = curHomes cur ++ [f] := by
            rw [add_fix_home_home_fixes, foldl_add_away_home_fixes, promote_home_fixes]
          refine ⟨f :: m, ?_, ?_, ?_, Or.inr ?_⟩
          · rw [heq, hm1]
            simp
          · intro g hg
            rcases List.mem_cons.mp hg with hgf | hgm
            · exact ⟨by rw [hgf]; exact List.mem_cons_self f rs, by rw [hgf]; exact h1⟩
            · refine ⟨List.mem_cons_of_mem f (hm2 g hgm).1, fun hgu => ?_⟩
              exact (hm2 g hgm).2 (List.mem_append_left _ hgu)
          · rw [List.map_cons, List.nodup_cons]
            refine ⟨fun hmem => ?_, hm3⟩
            rcases List.mem_map.mp hmem with ⟨g, hg, hgt⟩
            exact (hm2 g hg).2 (by rw [← hgt]; simp)
          · rcases hm4 with ⟨hcur, hmnil⟩ | ⟨c2, hres, hhomes, _, hprop⟩
            · refine ⟨_, by rw [heq, hcur], ?_, by simp, centroidProp_add_home _ _⟩
              rw [hmnil, hc2homes]
            · refine ⟨c2, by rw [heq]; exact hres, ?_, by simp, hprop⟩
              rw [hhomes]
              show (curHomes (CurrentItem.cluster _)) ++ m = _
              rw [curHomes, hc2homes]
              simp
        · have heq : scanFC radius cutoff (f :: rs) cur pa used =
              scanFC radius cutoff rs cur (pa ++ [f]) used := by
            rw [scanFC, if_neg h1, if_neg h2, if_neg h3]
          obtain ⟨m, hm1, hm2, hm3, hm4⟩ := ih cur (pa ++ [f]) used
          exact ⟨m, by rw [heq]; exact hm1,
            fun g hg => ⟨List.mem_cons_of_mem f (hm2 g hg).1, (hm2 g hg).2⟩, hm3,
            by rw [heq]; exact hm4⟩

/-- Invariant of the single-animal outer loop: committed clusters have
duplicate-free home-fix time lists, satisfy the centroid invariant, are
nonempty, and are pairwise home-disjoint (by timestamp). -/
theorem findClustersFCAux_spec (radius cutoff : ℚ) :
    ∀ (rem : List Fix) (used : List ℚ) (acc : List Cluster),
      (rem.map Fix.time).Nodup →
      (∀ c ∈ acc, (c.home_fixes.map Fix.time).Nodup ∧ centroidProp c ∧ c.home_fixes ≠ []) →
      List.Pairwise (fun c1 c2 => ∀ f1 ∈ c1.home_fixes, ∀ f2 ∈ c2.home_fixes,
        f1.time ≠ f2.time) acc →
      (∀ c ∈ acc, ∀ g ∈ c.home_fixes, g.time ∈ used ∨ g.time ∉ rem.map Fix.time) →
      ((∀ c ∈ findClustersFCAux radius cutoff rem used acc,
          (c.home_fixes.map Fix.time).Nodup ∧ centroidProp c ∧ c.home_fixes ≠ []) ∧
        List.Pairwise (fun c1 c2 => ∀ f1 ∈ c1.home_fixes, ∀ f2 ∈ c2.home_fixes,
          f1.time ≠ f2.time) (findClustersFCAux radius cutoff rem used acc)) := by
  intro rem
  induction rem with
  | nil =>
    intro used acc _hnd hacc hpw _hused
    rw [findClustersFCAux]
    exact ⟨hacc, hpw⟩
  | cons f rs ih =>
    intro used acc hnd hacc hpw hused
    rw [List.map_cons, List.nodup_cons] at hnd
    by_cases h1 : f.time ∈ used
    · have heq : findClustersFCAux radius cutoff (f :: rs) used acc =
          findClustersFCAux radius cutoff rs used acc := by
        rw [findClustersFCAux, if_pos h1]
      rw [heq]
      refine ih used acc hnd.2 hacc hpw (fun c hc g hg => ?_)
      rcases hused c hc g hg with h | h
      · exact Or.inl h
      · exact Or.inr (fun hmem => h (by rw [List.map_cons]; exact List.mem_cons_of_mem _ hmem))
    · obtain ⟨m, hs1, hs2, hs3, hs4⟩ := scanFC_spec radius cutoff rs (CurrentItem.fix f) [] used
      have hsplit : scanFC radius cutoff rs (CurrentItem.fix f) [] used =
          ((scanFC radius cutoff rs (CurrentItem.fix f) [] used).1,
           (scanFC radius cutoff rs (CurrentItem.fix f) [] used).2) := rfl
      rcases hs4 with ⟨hcur, hmnil⟩ | ⟨c', hres, hhomes, _hmne, hprop⟩
      · have hpair : scanFC radius cutoff rs (CurrentItem.fix f) [] used =
            (CurrentItem.fix f, used) := by
          rw [hsplit, hcur, hs1, hmnil]
          simp
        have heq : findClustersFCAux radius cutoff (f :: rs) used acc =
            findClustersFCAux radius cutoff rs used acc := by
          rw [findClustersFCAux, if_neg h1, hpair]
        rw [heq]
        refine ih used acc hnd.2 hacc hpw (fun c hc g hg => ?_)
        rcases hused c hc g hg with h | h
        · exact Or.inl h
        · exact Or.inr (fun hmem => h (by rw [List.map_cons]; exact List.mem_cons_of_mem _ hmem))
      · have hpair : scanFC radius cutoff rs (CurrentItem.fix f) [] used =
            (CurrentItem.cluster c', used ++ m.map Fix.time) := by
          rw [hsplit, hres, hs1]
        have heq : findClustersFCAux radius cutoff (f :: rs) used acc =
            findClustersFCAux radius cutoff rs (used ++ m.map Fix.time) (acc ++ [c']) := by
          rw [findClustersFCAux, if_neg h1, hpair]
        rw [heq]
        have hchomes : c'.home_fixes = f :: m := by rw [hhomes]; rfl
        have hcnodup : (c'.home_fixes.map Fix.time).Nodup := by
          rw [hchomes, List.map_cons, List.nodup_cons]
          refine ⟨fun hmem => ?_, hs3⟩
          rcases List.mem_map.mp hmem with ⟨g, hg, hgt⟩
          exact hnd.1 (by rw [← hgt]; exact List.mem_map_of_mem Fix.time (hs2 g hg).1)
        refine ih (used ++ m.map Fix.time) (acc ++ [c']) hnd.2 ?_ ?_ ?_
        · intro c hc
          rcases List.mem_append.mp hc with hco | hcn
          · exact hacc c hco
          · rw [List.mem_singleton.mp hcn]
            exact ⟨hcnodup, hprop, by rw [hchomes]; exact List.cons_ne_nil f m⟩
        · rw [List.pairwise_append]
          refine ⟨hpw, List.pairwise_singleton _ _, ?_⟩
          intro cold hcold cnew hcnew f1 hf1 f2 hf2
          rw [List.mem_singleton.mp hcnew, hchomes] at hf2
          rcases hused cold hcold f1 hf1 with hu | hu
          · rcases List.mem_cons.mp hf2 with hf | hf
            · rw [hf]
              exact fun he => h1 (he ▸ hu)
            · exact fun he => (hs2 f2 hf).2 (he ▸ hu)
          · rcases List.mem_cons.mp hf2 with hf | hf
            · rw [hf]
              exact fun he => hu (by rw [List.map_cons, he]; exact List.mem_cons_self _ _)
            · exact fun he => hu (by
                rw [List.map_cons, he]
                exact List.mem_cons_of_mem _ (List.mem_map_of_mem Fix.time (hs2 f2 hf).1))
        · intro c hc g hg
          rcases List.mem_append.mp hc with hco | hcn
          · rcases hused c hco g hg with hu | hu
            · exact Or.inl (List.mem_append_left _ hu)
            · exact Or.inr (fun hmem =>
                hu (by rw [List.map_cons]; exact List.mem_cons_of_mem _ hmem))
          · rw [List.mem_singleton.mp hcn, hchomes] at hg
            rcases List.mem_cons.mp hg with hgf | hgm
            · exact Or.inr (by rw [hgf]; exact hnd.1)
            · exact Or.inl (List.mem_append_right _ (List.mem_map_of_mem Fix.time hgm))

/-- Centroid invariant of the single-animal outer loop, needing no
precondition on the worklist. -/
theorem findClustersFCAux_centroid (radius cutoff : ℚ) :
    ∀ (rem : List Fix) (used : List ℚ) (acc : List Cluster),
      (∀ c ∈ acc, centroidProp c ∧ c.home_fixes ≠ []) →
      ∀ c ∈ findClustersFCAux radius cutoff rem used acc,
        centroidProp c ∧ c.home_fixes ≠ [] := by
  intro rem
  induction rem with
  | nil =>
    intro used acc hacc
    rw [findClustersFCAux]
    exact hacc
  | cons f rs ih =>
    intro used acc hacc
    by_cases h1 : f.time ∈ used
    · have heq : findClustersFCAux radius cutoff (f :: rs) used acc =
          findClustersFCAux radius cutoff rs used acc := by
        rw [findClustersFCAux, if_pos h1]
      rw [heq]
      exact ih used acc hacc
    · obtain ⟨m, hs1, _hs2, _hs3, hs4⟩ := scanFC_spec radius cutoff rs (CurrentItem.fix f) [] used
      have hsplit : scanFC radius cutoff rs (CurrentItem.fix f) [] used =
          ((scanFC radius cutoff rs (CurrentItem.fix f) [] used).1,
           (scanFC radius cutoff rs (CurrentItem.fix f) [] used).2) := rfl
      rcases hs4 with ⟨hcur, hmnil⟩ | ⟨c', hres, hhomes, _hmne, hprop⟩
      · have hpair : scanFC radius cutoff rs (CurrentItem.fix f) [] used =
            (CurrentItem.fix f, used) := by
          rw [hsplit, hcur, hs1, hmnil]
          simp
        have heq : findClustersFCAux radius cutoff (f :: rs) used acc =
            findClustersFCAux radius cutoff rs used acc := by
          rw [findClustersFCAux, if_neg h1, hpair]
        rw [heq]
        exact ih used acc hacc
      · have hpair : scanFC radius cutoff rs (CurrentItem.fix f) [] used =
            (CurrentItem.cluster c', used ++ m.map Fix.time) := by
          rw [hsplit, hres, hs1]
        have heq : findClustersFCAux radius cutoff (f :: rs) used acc =
            findClustersFCAux radius cutoff rs (used ++ m.map Fix.time) (acc ++ [c']) := by
          rw [findClustersFCAux, if_neg h1, hpair]
        rw [heq]
        refine ih _ _ (fun c hc => ?_)
        rcases List.mem_append.mp hc with hco | hcn
        · exact hacc c hco
        · rw [List.mem_singleton.mp hcn]
          exact ⟨hprop, by rw [hhomes]; exact List.cons_ne_nil f _⟩

/-! Invariants of the multi-animal sweep. -/

/-- Every away fix's animal id is also the animal id of some home fix. -/
def awayCatInv (c : Cluster) : Prop :=
  ∀ a ∈ c.away_fixes, a.catid ∈ c.home_fixes.map Fix.catid

/-- The full fix list is made of the home and away fixes, and contains all
home fixes. -/
def allMemInv (c : Cluster) : Prop :=
  (∀ g ∈ c.all_fixes, g ∈ c.home_fixes ∨ g ∈ c.away_fixes) ∧
  (∀ g ∈ c.home_fixes, g ∈ c.all_fixes)

/-- The structural invariant a committed multi-animal cluster satisfies. -/
def ClusterInvX (c : Cluster) : Prop := awayCatInv c ∧ allMemInv c

/-- The `cats_involved` map holds exactly the animal ids of the home
fixes. -/
def CatsOk (c : Cluster) (cats : List String) : Prop :=
  ∀ s, s ∈ cats ↔ s ∈ c.home_fixes.map Fix.catid

theorem allMemInv_mkCluster (f : Fix) : allMemInv (mkCluster f) := by
  constructor <;> intro g hg <;>
    simp only [mkCluster_all_fixes, mkCluster_home_fixes] at *
  · exact Or.inl hg
  · exact hg

theorem allMemInv_add_fix (c : Cluster) (f : Fix) (st : Status) (h : allMemInv c) :
    allMemInv (Cluster.add_fix c f st) := by
  cases st
  · constructor
    · intro g hg
      rw [add_fix_home_all_fixes] at hg
      rw [add_fix_home_home_fixes, add_fix_home_away_fixes]
      rcases List.mem_append.mp hg with hgo | hgf
      · rcases h.1 g hgo with hh | ha
        · exact Or.inl (List.mem_append_left _ hh)
        · exact Or.inr ha
      · exact Or.inl (List.mem_append_right _ hgf)
    · intro g hg
      rw [add_fix_home_home_fixes] at hg
      rw [add_fix_home_all_fixes]
      rcases List.mem_append.mp hg with hgo | hgf
      · exact List.mem_append_left _ (h.2 g hgo)
      · exact List.mem_append_right _ hgf
  · constructor
    · intro g hg
      rw [add_fix_away_all_fixes] at hg
      rw [add_fix_away_home_fixes, add_fix_away_away_fixes]
      rcases List.mem_append.mp hg with hgo | hgf
      · rcases h.1 g hgo with hh | ha
        · exact Or.inl hh
        · exact Or.inr (List.mem_append_left _ ha)
      · exact Or.inr (List.mem_append_right _ hgf)
    · intro g hg
      rw [add_fix_away_home_fixes] at hg
      rw [add_fix_away_all_fixes]
      exact List.mem_append_left _ (h.2 g hg)

/-- The away-flush fold of the multi-animal scan. -/
def flushAway (cats1 : List String) (pa : List Fix) (c : Cluster) : Cluster :=
  pa.foldl (fun c a => if a.catid ∈ cats1 then Cluster.add_fix c a Status.away else c) c

theorem flushAway_home_fixes :
    ∀ (pa : List Fix) (cats1 : List String) (c : Cluster),
      (flushAway cats1 pa c).home_fixes = c.home_fixes := by
  intro pa
  induction pa with
  | nil => intro cats1 c; rfl
  | cons a pa ih =>
    intro cats1 c
    rw [flushAway, List.foldl_cons]
    by_cases h : a.catid ∈ cats1
    · rw [if_pos h]
      rw [show List.foldl _ (Cluster.add_fix c a Status.away) pa =
        flushAway cats1 pa (Cluster.add_fix c a Status.away) from rfl]
      rw [ih, add_fix_away_home_fixes]
    · rw [if_neg h]
      exact ih cats1 c

theorem flushAway_away_fixes :
    ∀ (pa : List Fix) (cats1 : List String) (c : Cluster),
      ∀ a ∈ (flushAway cats1 pa c).away_fixes, a ∈ c.away_fixes ∨ a.catid ∈ cats1 := by
  intro pa
  induction pa with
  | nil => intro cats1 c a ha; exact Or.inl ha
  | cons b pa ih =>
    intro cats1 c a ha
    rw [flushAway, List.foldl_cons] at ha
    by_cases h : b.catid ∈ cats1
    · rw [if_pos h] at ha
      rw [show List.foldl _ (Cluster.add_fix c b Status.away) pa =
        flushAway cats1 pa (Cluster.add_fix c b Status.away) from rfl] at ha
      rcases ih cats1 _ a ha with hmem | hcat
      · rw [add_fix_away_away_fixes] at hmem
        rcases List.mem_append.mp hmem with hold | hb
        · exact Or.inl hold
        · rw [List.mem_singleton.mp hb]
          exact Or.inr h
      · exact Or.inr hcat
    · rw [if_neg h] at ha
      exact ih cats1 c a ha

theorem flushAway_allMemInv :
    ∀ (pa : List Fix) (cats1 : List String) (c : Cluster),
      allMemInv c → allMemInv (flushAway cats1 pa c) := by
  intro pa
  induction pa with
  | nil => intro cats1 c h; exact h
  | cons b pa ih =>
    intro cats1 c h
    rw [flushAway, List.foldl_cons]
    by_cases hb : b.catid ∈ cats1
    · rw [if_pos hb]
      rw [show List.foldl _ (Cluster.add_fix c b Status.away) pa =
        flushAway cats1 pa (Cluster.add_fix c b Status.away) from rfl]
      exact ih cats1 _ (allMemInv_add_fix c b Status.away h)
    · rw [if_neg hb]
      exact ih cats1 c h

theorem mem_insert_catid (s t : String) (l : List String) :
    (s ∈ (if t ∈ l then l else l ++ [t])) ↔ s ∈ l ∨ s = t := by
  by_cases h : t ∈ l
  · rw [if_pos h]
    exact ⟨Or.inl, fun hh => hh.elim id (fun he => he ▸ h)⟩
  · rw [if_neg h]
    simp

/-- The promotion-and-match step of the multi-animal scan establishes the
cluster invariant, puts `cats_involved` in sync with the home catids, and
extends the home list by exactly the matched fix. -/
theorem match_step_invX (cur : CurrentItem) (cats : List String) (pa : List Fix) (f : Fix)
    (hpre1 : ∀ f0, cur = CurrentItem.fix f0 → cats = [])
    (hpre2 : ∀ c, cur = CurrentItem.cluster c → ClusterInvX c ∧ CatsOk c cats) :
    ClusterInvX (Cluster.add_fix
      (flushAway (if f.catid ∈ promoteCats cur cats then promoteCats cur cats
        else promoteCats cur cats ++ [f.catid]) pa (promote cur)) f Status.home) ∧
    CatsOk (Cluster.add_fix
      (flushAway (if f.catid ∈ promoteCats cur cats then promoteCats cur cats
        else promoteCats cur cats ++ [f.catid]) pa (promote cur)) f Status.home)
      (if f.catid ∈ promoteCats cur cats then promoteCats cur cats
        else promoteCats cur cats ++ [f.catid]) ∧
    (Cluster.add_fix
      (flushAway (if f.catid ∈ promoteCats cur cats then promoteCats cur cats
        else promoteCats cur cats ++ [f.catid]) pa (promote cur)) f Status.home).home_fixes =
      curHomes cur ++ [f] := by
  have hp : ClusterInvX (promote cur) ∧ CatsOk (promote cur) (promoteCats cur cats) := by
    cases cur with
    | fix f0 =>
      have hc : cats = [] := hpre1 f0 rfl
      subst hc
      refine ⟨⟨fun a ha => ?_, allMemInv_mkCluster f0⟩, fun s => ?_⟩
      · rw [promote, mkCluster_away_fixes] at ha
        exact absurd ha (List.not_mem_nil a)
      · rw [promoteCats, promote, mkCluster_home_fixes]
        simp
    | cluster c =>
      exact ⟨(hpre2 c rfl).1, (hpre2 c rfl).2⟩
  have hhomes1 : (flushAway (if f.catid ∈ promoteCats cur cats then promoteCats cur cats
      else promoteCats cur cats ++ [f.catid]) pa (promote cur)).home_fixes =
      curHomes cur := by
    rw [flushAway_home_fixes, promote_home_fixes]
  have hhomes2 : (Cluster.add_fix
      (flushAway (if f.catid ∈ promoteCats cur cats then promoteCats cur cats
        else promoteCats cur cats ++ [f.catid]) pa (promote cur)) f Status.home).home_fixes =
      curHomes cur ++ [f] := by
    rw [add_fix_home_home_fixes, hhomes1]
  have hcats2 : CatsOk (Cluster.add_fix
      (flushAway (if f.catid ∈ promoteCats cur cats then promoteCats cur cats
        else promoteCats cur cats ++ [f.catid]) pa (promote cur)) f Status.home)
      (if f.catid ∈ promoteCats cur cats then promoteCats cur cats
        else promoteCats cur cats ++ [f.catid]) := by
    intro s
    rw [mem_insert_catid, hhomes2, List.map_append, List.mem_append]
    rw [← promote_home_fixes cur]
    constructor
    · intro hh
      rcases hh with hh | hh
      · exact Or.inl ((hp.2 s).mp hh)
      · exact Or.inr (by rw [hh]; simp)
    · intro hh
      rcases hh with hh | hh
      · exact Or.inl ((hp.2 s).mpr hh)
      · exact Or.inr (by simpa using hh)
  refine ⟨⟨?_, ?_⟩, hcats2, hhomes2⟩
  · intro a ha
    rw [add_fix_home_away_fixes] at ha
    rcases flushAway_away_fixes pa _ (promote cur) a ha with hmem | hcat
    · have := hp.1.1 a hmem
      rw [hhomes2, List.map_append, List.mem_append]
      rw [← promote_home_fixes cur]
      exact Or.inl this
    · exact (hcats2 a.catid).mp hcat
  · exact allMemInv_add_fix _ f Status.home
      (flushAway_allMemInv pa _ (promote cur) hp.1.2)

/-- Characterisation of one forward scan of the multi-animal sweep: like
`scanFC_spec`, with the used set keyed by (catid, time), and in addition
the promoted cluster satisfies the multi-animal invariant and its
`cats_involved` map holds exactly the home catids. -/
theorem scanFX_spec (radius cutoff : ℚ) :
    ∀ (rest : List Fix) (cur : CurrentItem) (pa : List Fix)
      (used : List (String × ℚ)) (cats : List String),
      (∀ f0, cur = CurrentItem.fix f0 → cats = []) →
      (∀ c, cur = CurrentItem.cluster c → ClusterInvX c ∧ CatsOk c cats) →
      ∃ matched : List Fix,
        (scanFX radius cutoff rest cur pa used cats).2.1 = used ++ matched.map keyX ∧
        (∀ g ∈ matched, g ∈ rest ∧ keyX g ∉ used) ∧
        (matched.map keyX).Nodup ∧
        (((scanFX radius cutoff rest cur pa used cats).1 = cur ∧ matched = [] ∧
            (scanFX radius cutoff rest cur pa used cats).2.2 = cats) ∨
          ∃ c', (scanFX radius cutoff rest cur pa used cats).1 = CurrentItem.cluster c' ∧
            c'.home_fixes = curHomes cur ++ matched ∧ matched ≠ [] ∧
            centroidProp c' ∧ ClusterInvX c' ∧
            CatsOk c' (scanFX radius cutoff rest cur pa used cats).2.2) := by
  intro rest
  induction rest with
  | nil =>
    intro cur pa used cats _hpre1 _hpre2
    exact ⟨[], by simp [scanFX], by simp, by simp, Or.inl ⟨rfl, rfl, rfl⟩⟩
  | cons f rs ih =>
    intro cur pa used cats hpre1 hpre2
    by_cases h1 : keyX f ∈ used
    · have heq : scanFX radius cutoff (f :: rs) cur pa used cats =
          scanFX radius cutoff rs cur pa used cats := by
        rw [scanFX, if_pos h1]
      obtain ⟨m, hm1, hm2, hm3, hm4⟩ := ih cur pa used cats hpre1 hpre2
      exact ⟨m, by rw [heq]; exact hm1,
        fun g hg => ⟨List.mem_cons_of_mem f (hm2 g hg).1, (hm2 g hg).2⟩, hm3,
        by rw [heq]; exact hm4⟩
    · by_cases h2 : cutoff < Fix.delay_from_item f cur
      · have heq : scanFX radius cutoff (f :: rs) cur pa used cats = (cur, used, cats) := by
          rw [scanFX, if_neg h1, if_pos h2]
        exact ⟨[], by rw [heq]; simp, by simp, by simp,
          Or.inl ⟨by rw [heq], rfl, by rw [heq]⟩⟩
      · by_cases h3 : Fix.dist_sq_from_item f cur ≤ radius ^ 2
        · have hstep := match_step_invX cur cats pa f hpre1 hpre2
          have heq : scanFX radius cutoff (f :: rs) cur pa used cats =
              scanFX radius cutoff rs
                (CurrentItem.cluster (Cluster.add_fix
                  (flushAway (if f.catid ∈ promoteCats cur cats then promoteCats cur cats
                    else promoteCats cur cats ++ [f.catid]) pa (promote cur))
                  f Status.home))
                [] (used ++ [keyX f])
                (if f.catid ∈ promoteCats cur cats then promoteCats cur cats
                  else promoteCats cur cats ++ [f.catid]) := by
            rw [scanFX, if_neg h1, if_neg h2, if_pos h3]
            rfl
          obtain ⟨m, hm1, hm2, hm3, hm4⟩ := ih
            (CurrentItem.cluster (Cluster.add_fix
              (flushAway (if f.catid ∈ promoteCats cur cats then promoteCats cur cats
                else promoteCats cur cats ++ [f.catid]) pa (promote cur))
              f Status.home))
            [] (used ++ [keyX f])
            (if f.catid ∈ promoteCats cur cats then promoteCats cur cats
              else promoteCats cur cats ++ [f.catid])
            (fun f0 hf0 => by exact absurd hf0 (by simp))
            (fun c hc => by
              rw [show c = Cluster.add_fix
                (flushAway (if f.catid ∈ promoteCats cur cats then promoteCats cur cats
                  else promoteCats cur cats ++ [f.catid]) pa (promote cur))
                f Status.home from by injection hc.symm]
              exact ⟨hstep.1, hstep.2.1⟩)
          refine ⟨f :: m, ?_, ?_, ?_, Or.inr ?_⟩
          · rw [heq, hm1]
            simp
          · intro g hg
            rcases List.mem_cons.mp hg with hgf | hgm
            · exact ⟨by rw [hgf]; exact List.mem_cons_self f rs, by rw [hgf]; exact h1⟩
            · refine ⟨List.mem_cons_of_mem f (hm2 g hgm).1, fun hgu => ?_⟩
              exact (hm2 g hgm).2 (List.mem_append_left _ hgu)
          · rw [List.map_cons, List.nodup_cons]
            refine ⟨fun hmem => ?_, hm3⟩
            rcases List.mem_map.mp hmem with ⟨g, hg, hgt⟩
            exact (hm2 g hg).2 (by rw [← hgt]; simp)
          · rcases hm4 with ⟨hcur, hmnil, hcats⟩ | ⟨c2, hres, hhomes, _, hprop, hinv, hcats⟩
            · refine ⟨_, by rw [heq, hcur], ?_, by simp, centroidProp_add_home _ _,
                hstep.1, ?_⟩
              · rw [hmnil, hstep.2.2]
              · rw [heq, hcats]
                exact hstep.2.1
            · refine ⟨c2, by rw [heq]; exact hres, ?_, by simp, hprop, hinv,
                by rw [heq]; exact hcats⟩
              rw [hhomes]
              show (curHomes (CurrentItem.cluster _)) ++ m = _
              rw [curHomes, hstep.2.2]
              simp
        · have heq : scanFX radius cutoff (f :: rs) cur pa used cats =
              scanFX radius cutoff rs cur (pa ++ [f]) used cats := by
            rw [scanFX, if_neg h1, if_neg h2, if_neg h3]
          obtain ⟨m, hm1, hm2, hm3, hm4⟩ := ih cur (pa ++ [f]) used cats hpre1 hpre2
          exact ⟨m, by rw [heq]; exact hm1,
            fun g hg => ⟨List.mem_cons_of_mem f (hm2 g hg).1, (hm2 g hg).2⟩, hm3,
            by rw [heq]; exact hm4⟩

/-- Invariant of the multi-animal outer loop: every committed cluster
satisfies the centroid invariant, is nonempty, and satisfies the
multi-animal structural invariant (away catids among home catids; full
list made of homes and aways). -/
theorem findClustersFXAux_inv (radius cutoff : ℚ) :
    ∀ (rem : List Fix) (used : List (String × ℚ)) (acc : List Cluster),
      (∀ c ∈ acc, centroidProp c ∧ c.home_fixes ≠ [] ∧ ClusterInvX c) →
      ∀ c ∈ findClustersFXAux radius cutoff rem used [] acc,
        centroidProp c ∧ c.home_fixes ≠ [] ∧ ClusterInvX c := by
  intro rem
  induction rem with
  | nil =>
    intro used acc hacc
    rw [findClustersFXAux]
    exact hacc
  | cons f rs ih =>
    intro used acc hacc
    by_cases h1 : keyX f ∈ used
    · have heq : findClustersFXAux radius cutoff (f :: rs) used [] acc =
          findClustersFXAux radius cutoff rs used [] acc := by
        rw [findClustersFXAux, if_pos h1]
      rw [heq]
      exact ih used acc hacc
    · obtain ⟨m, hs1, _hs2, _hs3, hs4⟩ := scanFX_spec radius cutoff rs (CurrentItem.fix f)
        [] used [] (fun _ _ => rfl) (fun c hc => by exact absurd hc (by simp))
      have hsplit : scanFX radius cutoff rs (CurrentItem.fix f) [] used [] =
          ((scanFX radius cutoff rs (CurrentItem.fix f) [] used []).1,
           (scanFX radius cutoff rs (CurrentItem.fix f) [] used []).2.1,
           (scanFX radius cutoff rs (CurrentItem.fix f) [] used []).2.2) := rfl
      rcases hs4 with ⟨hcur, hmnil, hcats⟩ | ⟨c', hres, hhomes, _hmne, hprop, hinv, _hcats⟩
      · have hpair : scanFX radius cutoff rs (CurrentItem.fix f) [] used [] =
            (CurrentItem.fix f, used, []) := by
          rw [hsplit, hcur, hs1, hmnil, hcats]
          simp
        have heq : findClustersFXAux radius cutoff (f :: rs) used [] acc =
            findClustersFXAux radius cutoff rs used [] acc := by
          rw [findClustersFXAux, if_neg h1, hpair]
        rw [heq]
        exact ih used acc hacc
      · have hpair : scanFX radius cutoff rs (CurrentItem.fix f) [] used [] =
            (CurrentItem.cluster c', used ++ m.map keyX,
              (scanFX radius cutoff rs (CurrentItem.fix f) [] used []).2.2) := by
          rw [hsplit, hres, hs1]
        have heq : findClustersFXAux radius cutoff (f :: rs) used [] acc =
            findClustersFXAux radius cutoff rs (used ++ m.map keyX) [] (acc ++ [c']) := by
          rw [findClustersFXAux, if_neg h1, hpair]
        rw [heq]
        refine ih _ _ (fun c hc => ?_)
        rcases List.mem_append.mp hc with hco | hcn
        · exact hacc c hco
        · rw [List.mem_singleton.mp hcn]
          exact ⟨hprop, by rw [hhomes]; exact List.cons_ne_nil f _, hinv⟩

/-- Under a time-ordered worklist, every committed cluster of the
multi-animal sweep has its first home fix (the promoted one) as the
earliest home fix. -/
theorem findClustersFXAux_headmin (radius cutoff : ℚ) :
    ∀ (rem : List Fix) (used : List (String × ℚ)) (acc : List Cluster),
      rem.Pairwise timeLE →
      (∀ c ∈ acc, ∃ f0 m, c.home_fixes = f0 :: m ∧ ∀ g ∈ m, f0.time ≤ g.time) →
      ∀ c ∈ findClustersFXAux radius cutoff rem used [] acc,
        ∃ f0 m, c.home_fixes = f0 :: m ∧ ∀ g ∈ m, f0.time ≤ g.time := by
  intro rem
  induction rem with
  | nil =>
    intro used acc _hp hacc
    rw [findClustersFXAux]
    exact hacc
  | cons f rs ih =>
    intro used acc hp hacc
    rw [List.pairwise_cons] at hp
    by_cases h1 : keyX f ∈ used
    · have heq : findClustersFXAux radius cutoff (f :: rs) used [] acc =
          findClustersFXAux radius cutoff rs used [] acc := by
        rw [findClustersFXAux, if_pos h1]
      rw [heq]
      exact ih used acc hp.2 hacc
    · obtain ⟨m, hs1, hs2, _hs3, hs4⟩ := scanFX_spec radius cutoff rs (CurrentItem.fix f)
        [] used [] (fun _ _ => rfl) (fun c hc => by exact absurd hc (by simp))
      have hsplit : scanFX radius cutoff rs (CurrentItem.fix f) [] used [] =
          ((scanFX radius cutoff rs (CurrentItem.fix f) [] used []).1,
           (scanFX radius cutoff rs (CurrentItem.fix f) [] used []).2.1,
           (scanFX radius cutoff rs (CurrentItem.fix f) [] used []).2.2) := rfl
      rcases hs4 with ⟨hcur, hmnil, hcats⟩ | ⟨c', hres, hhomes, _hmne, _hprop, _hinv, _hcats⟩
      · have hpair : scanFX radius cutoff rs (CurrentItem.fix f) [] used [] =
            (CurrentItem.fix f, used, []) := by
          rw [hsplit, hcur, hs1, hmnil, hcats]
          simp
        have heq : findClustersFXAux radius cutoff (f :: rs) used [] acc =
            findClustersFXAux radius cutoff rs used [] acc := by
          rw [findClustersFXAux, if_neg h1, hpair]
        rw [heq]
        exact ih used acc hp.2 hacc
      · have hpair : scanFX radius cutoff rs (CurrentItem.fix f) [] used [] =
            (CurrentItem.cluster c', used ++ m.map keyX,
              (scanFX radius cutoff rs (CurrentItem.fix f) [] used []).2.2) := by
          rw [hsplit, hres, hs1]
        have heq : findClustersFXAux radius cutoff (f :: rs) used [] acc =
            findClustersFXAux radius cutoff rs (used ++ m.map keyX) [] (acc ++ [c']) := by
          rw [findClustersFXAux, if_neg h1, hpair]
        rw [heq]
        refine ih _ _ hp.2 (fun c hc => ?_)
        rcases List.mem_append.mp hc with hco | hcn
        · exact hacc c hco
        · rw [List.mem_singleton.mp hcn]
          refine ⟨f, m, by rw [hhomes]; rfl, fun g hg => hp.1 g (hs2 g hg).1⟩

/-- With a worklist deduplicated by (catid, time), the home-fix lists of
distinct committed multi-animal clusters are disjoint and each is
duplicate-free. -/
theorem findClustersFXAux_disjoint (radius cutoff : ℚ) :
    ∀ (rem : List Fix) (used : List (String × ℚ)) (acc : List Cluster),
      (rem.map keyX).Nodup →
      (∀ c ∈ acc, (c.home_fixes.map keyX).Nodup) →
      List.Pairwise (fun c1 c2 => ∀ f1 ∈ c1.home_fixes, ∀ f2 ∈ c2.home_fixes,
        keyX f1 ≠ keyX f2) acc →
      (∀ c ∈ acc, ∀ g ∈ c.home_fixes, keyX g ∈ used ∨ keyX g ∉ rem.map keyX) →
      ((∀ c ∈ findClustersFXAux radius cutoff rem used [] acc,
          (c.home_fixes.map keyX).Nodup) ∧
        List.Pairwise (fun c1 c2 => ∀ f1 ∈ c1.home_fixes, ∀ f2 ∈ c2.home_fixes,
          keyX f1 ≠ keyX f2) (findClustersFXAux radius cutoff rem used [] acc)) := by
  intro rem
  induction rem with
  | nil =>
    intro used acc _hnd hacc hpw _hused
    rw [findClustersFXAux]
    exact ⟨hacc, hpw⟩
  | cons f rs ih =>
    intro used acc hnd hacc hpw hused
    rw [List.map_cons, List.nodup_cons] at hnd
    by_cases h1 : keyX f ∈ used
    · have heq : findClustersFXAux radius cutoff (f :: rs) used [] acc =
          findClustersFXAux radius cutoff rs used [] acc := by
        rw [findClustersFXAux, if_pos h1]
      rw [heq]
      refine ih used acc hnd.2 hacc hpw (fun c hc g hg => ?_)
      rcases hused c hc g hg with h | h
      · exact Or.inl h
      · exact Or.inr (fun hmem => h (by rw [List.map_cons]; exact List.mem_cons_of_mem _ hmem))
    · obtain ⟨m, hs1, hs2, hs3, hs4⟩ := scanFX_spec radius cutoff rs (CurrentItem.fix f)
        [] used [] (fun _ _ => rfl) (fun c hc => by exact absurd hc (by simp))
      have hsplit : scanFX radius cutoff rs (CurrentItem.fix f) [] used [] =
          ((scanFX radius cutoff rs (CurrentItem.fix f) [] used []).1,
           (scanFX radius cutoff rs (CurrentItem.fix f) [] used []).2.1,
           (scanFX radius cutoff rs (CurrentItem.fix f) [] used []).2.2) := rfl
      rcases hs4 with ⟨hcur, hmnil, hcats⟩ | ⟨c', hres, hhomes, _hmne, _hprop, _hinv, _hcats⟩
      · have hpair : scanFX radius cutoff rs (CurrentItem.fix f) [] used [] =
            (CurrentItem.fix f, used, []) := by
          rw [hsplit, hcur, hs1, hmnil, hcats]
          simp
        have heq : findClustersFXAux radius cutoff (f :: rs) used [] acc =
            findClustersFXAux radius cutoff rs used [] acc := by
          rw [findClustersFXAux, if_neg h1, hpair]
        rw [heq]
        refine ih used acc hnd.2 hacc hpw (fun c hc g hg => ?_)
        rcases hused c hc g hg with h | h
        · exact Or.inl h
        · exact Or.inr (fun hmem => h (by rw [List.map_cons]; exact List.mem_cons_of_mem _ hmem))
      · have hpair : scanFX radius cutoff rs (CurrentItem.fix f) [] used [] =
            (CurrentItem.cluster c', used ++ m.map keyX,
              (scanFX radius cutoff rs (CurrentItem.fix f) [] used []).2.2) := by
          rw [hsplit, hres, hs1]
        have heq : findClustersFXAux radius cutoff (f :: rs) used [] acc =
            findClustersFXAux radius cutoff rs (used ++ m.map keyX) [] (acc ++ [c']) := by
          rw [findClustersFXAux, if_neg h1, hpair]
        rw [heq]
        have hchomes : c'.home_fixes = f :: m := by rw [hhomes]; rfl
        have hcnodup : (c'.home_fixes.map keyX).Nodup := by
          rw [hchomes, List.map_cons, List.nodup_cons]
          refine ⟨fun hmem => ?_, hs3⟩
          rcases List.mem_map.mp hmem with ⟨g, hg, hgt⟩
          exact hnd.1 (by rw [← hgt]; exact List.mem_map_of_mem keyX (hs2 g hg).1)
        refine ih (used ++ m.map keyX) (acc ++ [c']) hnd.2 ?_ ?_ ?_
        · intro c hc
          rcases List.mem_append.mp hc with hco | hcn
          · exact hacc c hco
          · rw [List.mem_singleton.mp hcn]
            exact hcnodup
        · rw [List.pairwise_append]
          refine ⟨hpw, List.pairwise_singleton _ _, ?_⟩
          intro cold hcold cnew hcnew f1 hf1 f2 hf2
          rw [List.mem_singleton.mp hcnew, hchomes] at hf2
          rcases hused cold hcold f1 hf1 with hu | hu
          · rcases List.mem_cons.mp hf2 with hf | hf
            · rw [hf]
              exact fun he => h1 (he ▸ hu)
            · exact fun he => (hs2 f2 hf).2 (he ▸ hu)
          · rcases List.mem_cons.mp hf2 with hf | hf
            · rw [hf]
              exact fun he => hu (by rw [List.map_cons, he]; exact List.mem_cons_self _ _)
            · exact fun he => hu (by
                rw [List.map_cons, he]
                exact List.mem_cons_of_mem _ (List.mem_map_of_mem keyX (hs2 f2 hf).1))
        · intro c hc g hg
          rcases List.mem_append.mp hc with hco | hcn
          · rcases hused c hco g hg with hu | hu
            · exact Or.inl (List.mem_append_left _ hu)
            · exact Or.inr (fun hmem =>
                hu (by rw [List.map_cons]; exact List.mem_cons_of_mem _ hmem))
          · rw [List.mem_singleton.mp hcn, hchomes] at hg
            rcases List.mem_cons.mp hg with hgf | hgm
            · exact Or.inr (by rw [hgf]; exact hnd.1)
            · exact Or.inl (List.mem_append_right _ (List.mem_map_of_mem keyX hgm))

/-! Claim C1: the partition property of the clustering sweep. -/

/-- Input for the partition counterexample: four fixes of one animal at
times 0..3; fixes 1 and 3 sit at the origin area, fixes 2 and 4 sit 300 m
east (outside the 200 m radius of the first cluster but within 200 m of
each other). -/
def cexFix1 : Fix := ⟨"f1", "F1", 0, 0, 0⟩

def cexFix2 : Fix := ⟨"f2", "F1", 1, 300, 0⟩

def cexFix3 : Fix := ⟨"f3", "F1", 2, 0, 10⟩

def cexFix4 : Fix := ⟨"f4", "F1", 3, 300, 10⟩

/-- Claim C1 as stated is false on the code: the sweep never marks away
fixes as used, so a fix can appear in the fix lists of two different
committed clusters, being an away fix of one and a home fix of the other.
Concrete input (radius 200, cutoff 1000, duplicate-free times 0..3): the
sweep commits cluster 1 with homes {f1, f3} and away {f2}, then commits
cluster 2 with homes {f2, f4} — fix f2 is in both clusters, both as an
away fix and as a home fix. -/
theorem partition_counterexample :
    ([cexFix1, cexFix2, cexFix3, cexFix4].map Fix.time).Nodup ∧
    (findClustersFC 200 1000 [cexFix1, cexFix2, cexFix3, cexFix4]).map
        (fun c => (c.home_fixes.map Fix.id, c.away_fixes.map Fix.id)) =
      [(["f1", "f3"], ["f2"]), (["f2", "f4"], [])] ∧
    ∃ c1 ∈ findClustersFC 200 1000 [cexFix1, cexFix2, cexFix3, cexFix4],
      ∃ c2 ∈ findClustersFC 200 1000 [cexFix1, cexFix2, cexFix3, cexFix4],
        c1.id ≠ c2.id ∧ cexFix2 ∈ c1.away_fixes ∧ cexFix2 ∈ c2.home_fixes := by
  have hout : findClustersFC 200 1000 [cexFix1, cexFix2, cexFix3, cexFix4] =
      [⟨[cexFix1, cexFix3], [cexFix2], [cexFix1, cexFix2, cexFix3], 0, "F1", 0, 2, 2, 0, 5⟩,
       ⟨[cexFix2, cexFix4], [], [cexFix2, cexFix4], 1, "F1", 1, 3, 2, 300, 5⟩] := by
    norm_num [findClustersFC, findClustersFCAux, scanFC, promote, mkCluster, Cluster.add_fix,
      Cluster.recalculate_core_data, Fix.delay_from_item, Fix.delay_from_fix,
      Fix.delay_from_cluster, Fix.dist_sq_from_item, dist_sq,
      cexFix1, cexFix2, cexFix3, cexFix4]
  refine ⟨by norm_num [cexFix1, cexFix2, cexFix3, cexFix4], ?_, ?_⟩
  · rw [hout]
    norm_num [cexFix1, cexFix2, cexFix3, cexFix4]
  · refine ⟨⟨[cexFix1, cexFix3], [cexFix2], [cexFix1, cexFix2, cexFix3],
        0, "F1", 0, 2, 2, 0, 5⟩, by rw [hout]; simp,
      ⟨[cexFix2, cexFix4], [], [cexFix2, cexFix4], 1, "F1", 1, 3, 2, 300, 5⟩,
      by rw [hout]; simp, by norm_num, by simp, by simp⟩

/-- Claim C1 (amended): a fix cannot be the home fix of two different
committed clusters — in either sweep, on a worklist deduplicated by the
sweep's key (timestamp for the single-animal sweep, (animal, timestamp)
for the multi-animal sweep), the home-fix lists of the committed clusters
are pairwise disjoint and each is duplicate-free. The original three-state
partition fails: an away fix is never marked used, so it can appear in
several clusters' fix lists and be an away fix of one cluster while being
a home fix of another. -/
theorem home_fix_unique (radius cutoff : ℚ) (fixes : List Fix) :
    ((fixes.map Fix.time).Nodup →
      (∀ c ∈ findClustersFC radius cutoff fixes, (c.home_fixes.map Fix.time).Nodup) ∧
      List.Pairwise (fun c1 c2 => ∀ f1 ∈ c1.home_fixes, ∀ f2 ∈ c2.home_fixes,
        f1.time ≠ f2.time) (findClustersFC radius cutoff fixes)) ∧
    ((fixes.map keyX).Nodup →
      (∀ c ∈ findClustersFX radius cutoff fixes, (c.home_fixes.map keyX).Nodup) ∧
      List.Pairwise (fun c1 c2 => ∀ f1 ∈ c1.home_fixes, ∀ f2 ∈ c2.home_fixes,
        keyX f1 ≠ keyX f2) (findClustersFX radius cutoff fixes)) := by
  constructor
  · intro hnd
    have h := findClustersFCAux_spec radius cutoff fixes [] [] hnd
      (by simp) List.Pairwise.nil (by simp)
    exact ⟨fun c hc => (h.1 c hc).1, h.2⟩
  · intro hnd
    have h := findClustersFXAux_disjoint radius cutoff fixes [] [] hnd
      (by simp) List.Pairwise.nil (by simp)
    exact ⟨h.1, h.2⟩

/-- Witness for `home_fix_unique` at the counterexample input, whose times
and (catid, time) keys are duplicate-free. -/
theorem home_fix_unique_witness :
    ([cexFix1, cexFix2, cexFix3, cexFix4].map Fix.time).Nodup ∧
    ([cexFix1, cexFix2, cexFix3, cexFix4].map keyX).Nodup ∧
    ((∀ c ∈ findClustersFC 200 1000 [cexFix1, cexFix2, cexFix3, cexFix4],
        (c.home_fixes.map Fix.time).Nodup) ∧
      List.Pairwise (fun c1 c2 => ∀ f1 ∈ c1.home_fixes, ∀ f2 ∈ c2.home_fixes,
        f1.time ≠ f2.time) (findClustersFC 200 1000 [cexFix1, cexFix2, cexFix3, cexFix4])) ∧
    ((∀ c ∈ findClustersFX 200 1000 [cexFix1, cexFix2, cexFix3, cexFix4],
        (c.home_fixes.map keyX).Nodup) ∧
      List.Pairwise (fun c1 c2 => ∀ f1 ∈ c1.home_fixes, ∀ f2 ∈ c2.home_fixes,
        keyX f1 ≠ keyX f2) (findClustersFX 200 1000 [cexFix1, cexFix2, cexFix3, cexFix4])) := by
  have h1 : ([cexFix1, cexFix2, cexFix3, cexFix4].map Fix.time).Nodup := by
    norm_num [cexFix1, cexFix2, cexFix3, cexFix4]
  have h2 : ([cexFix1, cexFix2, cexFix3, cexFix4].map keyX).Nodup := by
    norm_num [cexFix1, cexFix2, cexFix3, cexFix4, keyX]
  exact ⟨h1, h2, (home_fix_unique 200 1000 _).1 h1, (home_fix_unique 200 1000 _).2 h2⟩

/-! Claim C4: centroid correctness. -/

/-- Claim C4: every committed cluster (of either sweep) has a nonempty
home list and its centroid equals the arithmetic mean of the home fixes'
coordinates; adding a home fix recomputes the centroid over the extended
home list, adding an away fix changes neither the centroid nor the start
and end times. -/
theorem centroid_correct (radius cutoff : ℚ) (fixes : List Fix) :
    (∀ c ∈ findClustersFC radius cutoff fixes,
      c.x = (c.home_fixes.map Fix.x).sum / (c.home_fixes.length : ℚ) ∧
      c.y = (c.home_fixes.map Fix.y).sum / (c.home_fixes.length : ℚ) ∧
      c.home_fixes ≠ []) ∧
    (∀ c ∈ findClustersFX radius cutoff fixes,
      c.x = (c.home_fixes.map Fix.x).sum / (c.home_fixes.length : ℚ) ∧
      c.y = (c.home_fixes.map Fix.y).sum / (c.home_fixes.length : ℚ) ∧
      c.home_fixes ≠ []) ∧
    (∀ (c : Cluster) (f : Fix),
      (Cluster.add_fix c f Status.home).x =
        ((c.home_fixes ++ [f]).map Fix.x).sum / ((c.home_fixes ++ [f]).length : ℚ) ∧
      (Cluster.add_fix c f Status.home).y =
        ((c.home_fixes ++ [f]).map Fix.y).sum / ((c.home_fixes ++ [f]).length : ℚ) ∧
      (Cluster.add_fix c f Status.away).x = c.x ∧
      (Cluster.add_fix c f Status.away).y = c.y ∧
      (Cluster.add_fix c f Status.away).start_time = c.start_time ∧
      (Cluster.add_fix c f Status.away).end_time = c.end_time) := by
  refine ⟨fun c hc => ?_, fun c hc => ?_, fun c f => ?_⟩
  · have h := findClustersFCAux_centroid radius cutoff fixes [] [] (by simp) c hc
    exact ⟨h.1.1, h.1.2, h.2⟩
  · have h := findClustersFXAux_inv radius cutoff fixes [] [] (by simp) c hc
    exact ⟨h.1.1, h.1.2, h.2.1⟩
  · exact ⟨add_fix_home_x c f, add_fix_home_y c f, add_fix_away_x c f,
      add_fix_away_y c f, add_fix_away_start_time c f, add_fix_away_end_time c f⟩

/-! Claim C5: crossing cardinality and identity. -/

theorem firstSeen_mem :
    ∀ (l : List String) (seen : List String) (x : String),
      x ∈ firstSeen l seen ↔ x ∈ l ∧ x ∉ seen := by
  intro l
  induction l with
  | nil => intro seen x; simp [firstSeen]
  | cons a rest ih =>
    intro seen x
    by_cases h : a ∈ seen
    · rw [firstSeen, if_pos h, ih]
      constructor
      · exact fun hh => ⟨List.mem_cons_of_mem a hh.1, hh.2⟩
      · rintro ⟨hmem, hns⟩
        rcases List.mem_cons.mp hmem with he | hm
        · exact absurd (he ▸ h) hns
        · exact ⟨hm, hns⟩
    · rw [firstSeen, if_neg h]
      constructor
      · intro hh
        rcases List.mem_cons.mp hh with he | hm
        · exact ⟨he ▸ List.mem_cons_self a rest, he ▸ h⟩
        · have := (ih (seen ++ [a]) x).mp hm
          exact ⟨List.mem_cons_of_mem a this.1,
            fun hs => this.2 (List.mem_append_left _ hs)⟩
      · rintro ⟨hmem, hns⟩
        rcases List.mem_cons.mp hmem with he | hm
        · exact he ▸ List.mem_cons_self a _
        · by_cases hxa : x = a
          · exact hxa ▸ List.mem_cons_self a _
          · exact List.mem_cons_of_mem a ((ih (seen ++ [a]) x).mpr
              ⟨hm, fun hs => (List.mem_append.mp hs).elim hns
                (fun hx => hxa (List.mem_singleton.mp hx))⟩)

theorem firstSeen_nodup :
    ∀ (l : List String) (seen : List String), (firstSeen l seen).Nodup := by
  intro l
  induction l with
  | nil => intro seen; simp [firstSeen]
  | cons a rest ih =>
    intro seen
    by_cases h : a ∈ seen
    · rw [firstSeen, if_pos h]
      exact ih seen
    · rw [firstSeen, if_neg h, List.nodup_cons]
      refine ⟨fun hmem => ?_, ih (seen ++ [a])⟩
      exact ((firstSeen_mem rest (seen ++ [a]) a).mp hmem).2 (by simp)

theorem nodup_two_mem {α : Type} {l : List α} (hnd : l.Nodup) (hlen : 2 ≤ l.length) :
    ∃ a ∈ l, ∃ b ∈ l, a ≠ b := by
  match l, hnd, hlen with
  | a :: b :: rest, hnd, _ =>
    rw [List.nodup_cons] at hnd
    exact ⟨a, List.mem_cons_self _ _,
      b, List.mem_cons_of_mem a (List.mem_cons_self _ _),
      fun he => hnd.1 (he ▸ List.mem_cons_self b rest)⟩

theorem two_mem_nodup_length {α : Type} {l : List α} {a b : α} (hnd : l.Nodup)
    (ha : a ∈ l) (hb : b ∈ l) (hab : a ≠ b) : 2 ≤ l.length := by
  match l, hnd, ha, hb with
  | [c], _, ha, hb =>
    exact absurd ((List.mem_singleton.mp ha).trans (List.mem_singleton.mp hb).symm) hab
  | c :: d :: rest, _, _, _ => simp

theorem mkCrossing_id (crossingid : ℚ × List String)
    (home_fixes away_fixes all_fixes : List Fix) (catids : List String) :
    (mkCrossing crossingid home_fixes away_fixes all_fixes catids).id = crossingid := rfl

theorem mkCrossing_catids (crossingid : ℚ × List String)
    (home_fixes away_fixes all_fixes : List Fix) (catids : List String) :
    (mkCrossing crossingid home_fixes away_fixes all_fixes catids).catids = catids := rfl

theorem mkCrossing_home_fixes (crossingid : ℚ × List String)
    (home_fixes away_fixes all_fixes : List Fix) (catids : List String) :
    (mkCrossing crossingid home_fixes away_fixes all_fixes catids).home_fixes =
      home_fixes.insertionSort timeLE := rfl

theorem mkCrossing_closest_meetings (crossingid : ℚ × List String)
    (home_fixes away_fixes all_fixes : List Fix) (catids : List String) :
    (mkCrossing crossingid home_fixes away_fixes all_fixes catids).closest_meetings =
      find_closest_meeting catids (home_fixes.insertionSort timeLE) := rfl

/-- Membership in the output of `clusters_to_crossings`: each crossing
originates from a committed cluster with at least two involved catids. -/
theorem mem_clusters_to_crossings :
    ∀ (clusters : List Cluster) (acc : List Crossing) (cr : Crossing),
      cr ∈ clusters.foldl clusterToCrossingStep acc →
      cr ∈ acc ∨ ∃ cluster ∈ clusters,
        ¬ (firstSeen (cluster.all_fixes.map Fix.catid) []).length < 2 ∧
        cr = mkCrossing
          (((cluster.home_fixes.head?).map Fix.time).getD 0,
            (firstSeen (cluster.all_fixes.map Fix.catid) []).insertionSort catidLE)
          cluster.home_fixes cluster.away_fixes cluster.all_fixes
          ((firstSeen (cluster.all_fixes.map Fix.catid) []).insertionSort catidLE) := by
  intro clusters
  induction clusters with
  | nil => intro acc cr h; exact Or.inl h
  | cons c cs ih =>
    intro acc cr h
    rw [List.foldl_cons] at h
    by_cases hlen : (firstSeen (c.all_fixes.map Fix.catid) []).length < 2
    · have hstep : clusterToCrossingStep acc c = acc := by
        rw [clusterToCrossingStep]
        exact if_pos hlen
      rw [hstep] at h
      rcases ih acc cr h with hacc | ⟨cl, hcl, hl, he⟩
      · exact Or.inl hacc
      · exact Or.inr ⟨cl, List.mem_cons_of_mem c hcl, hl, he⟩
    · have hstep : clusterToCrossingStep acc c = acc ++ [mkCrossing
          (((c.home_fixes.head?).map Fix.time).getD 0,
            (firstSeen (c.all_fixes.map Fix.catid) []).insertionSort catidLE)
          c.home_fixes c.away_fixes c.all_fixes
          ((firstSeen (c.all_fixes.map Fix.catid) []).insertionSort catidLE)] := by
        rw [clusterToCrossingStep]
        exact if_neg hlen
      rw [hstep] at h
      rcases ih _ cr h with hacc | ⟨cl, hcl, hl, he⟩
      · rcases List.mem_append.mp hacc with hold | hnew
        · exact Or.inl hold
        · exact Or.inr ⟨c, List.mem_cons_self c cs, hlen, List.mem_singleton.mp hnew⟩
      · exact Or.inr ⟨cl, List.mem_cons_of_mem c hcl, hl, he⟩

/-- Claim C5: after the multi-animal sweep, a committed cluster with fewer
than two involved animal ids yields no Crossing; every produced Crossing
has at least two distinct animal ids among its home fixes, its recorded
catid list is sorted and holds exactly the animal ids of the home fixes,
and its identity pairs the first (earliest) home fix's timestamp with that
sorted catid list. The worklist is assumed time-ordered, as the pipeline
orders it before sweeping. -/
theorem crossing_cardinality (radius cutoff : ℚ) (fixes : List Fix)
    (hsort : fixes.Pairwise timeLE) :
    ∀ cr ∈ findCrossings radius cutoff fixes,
      2 ≤ ((cr.home_fixes.map Fix.catid).dedup).length ∧
      (∀ s, s ∈ cr.catids ↔ s ∈ cr.home_fixes.map Fix.catid) ∧
      cr.catids.Sorted catidLE ∧
      cr.id = (((cr.home_fixes.head?).map Fix.time).getD 0, cr.catids) := by
  intro cr hcr
  rw [findCrossings, clusters_to_crossings] at hcr
  rcases mem_clusters_to_crossings _ [] cr hcr with h | ⟨cl, hcl, hlen, he⟩
  · exact absurd h (List.not_mem_nil cr)
  · have hinv := findClustersFXAux_inv radius cutoff fixes [] [] (by simp) cl hcl
    obtain ⟨f0, m, hf0, hmin⟩ :=
      findClustersFXAux_headmin radius cutoff fixes [] [] hsort (by simp) cl hcl
    have hsets : ∀ s : String,
        s ∈ cl.all_fixes.map Fix.catid ↔ s ∈ cl.home_fixes.map Fix.catid := by
      intro s
      constructor
      · intro hs
        rcases List.mem_map.mp hs with ⟨g, hg, hge⟩
        rcases hinv.2.2.2.1 g hg with hh | ha
        · exact hge ▸ List.mem_map_of_mem Fix.catid hh
        · exact hge ▸ hinv.2.2.1 g ha
      · intro hs
        rcases List.mem_map.mp hs with ⟨g, hg, hge⟩
        exact hge ▸ List.mem_map_of_mem Fix.catid (hinv.2.2.2.2 g hg)
    have hcat_mem : ∀ s : String,
        s ∈ (firstSeen (cl.all_fixes.map Fix.catid) []).insertionSort catidLE ↔
          s ∈ cl.home_fixes.map Fix.catid := by
      intro s
      rw [List.mem_insertionSort, firstSeen_mem]
      simp only [List.not_mem_nil, not_false_iff, and_true]
      exact hsets s
    have hhomesort : ∀ s : String,
        s ∈ (cl.home_fixes.insertionSort timeLE).map Fix.catid ↔
          s ∈ cl.home_fixes.map Fix.catid :=
      fun s => ((List.perm_insertionSort timeLE cl.home_fixes).map Fix.catid).mem_iff
    subst he
    rw [mkCrossing_catids, mkCrossing_home_fixes, mkCrossing_id]
    have hsorthead : cl.home_fixes.insertionSort timeLE = f0 :: m.insertionSort timeLE := by
      rw [hf0]
      exact List.insertionSort_cons timeLE (fun b hb => hmin b hb)
    refine ⟨?_, ?_, ?_, ?_⟩
    · have h2 : 2 ≤ (firstSeen (cl.all_fixes.map Fix.catid) []).length := not_lt.mp hlen
      obtain ⟨s1, hs1, s2, hs2, hne⟩ := nodup_two_mem (firstSeen_nodup _ []) h2
      have hm1 : s1 ∈ ((cl.home_fixes.insertionSort timeLE).map Fix.catid).dedup :=
        List.mem_dedup.mpr ((hhomesort s1).mpr
          ((hsets s1).mp ((firstSeen_mem _ [] s1).mp hs1).1))
      have hm2 : s2 ∈ ((cl.home_fixes.insertionSort timeLE).map Fix.catid).dedup :=
        List.mem_dedup.mpr ((hhomesort s2).mpr
          ((hsets s2).mp ((firstSeen_mem _ [] s2).mp hs2).1))
      exact two_mem_nodup_length (List.nodup_dedup _) hm1 hm2 hne
    · intro s
      rw [hcat_mem s, hhomesort s]
    · haveI h1 : IsTotal String catidLE := ⟨fun a b => le_total a b⟩
      haveI h2 : IsTrans String catidLE := ⟨fun _ _ _ hab hbc => le_trans hab hbc⟩
      exact List.sorted_insertionSort catidLE _
    · rw [hsorthead, hf0]
      rfl

/-- Witness for `crossing_cardinality`: a time-ordered pool of three
mutually close fixes of two animals, yielding one crossing. -/
theorem crossing_cardinality_witness :
    ([(⟨"a", "F1", 0, 0, 0⟩ : Fix), ⟨"b", "F2", 1, 5, 0⟩,
        ⟨"c", "F1", 2, 0, 5⟩] : List Fix).Pairwise timeLE ∧
    ∀ cr ∈ findCrossings 200 1000
        [(⟨"a", "F1", 0, 0, 0⟩ : Fix), ⟨"b", "F2", 1, 5, 0⟩, ⟨"c", "F1", 2, 0, 5⟩],
      2 ≤ ((cr.home_fixes.map Fix.catid).dedup).length ∧
      (∀ s, s ∈ cr.catids ↔ s ∈ cr.home_fixes.map Fix.catid) ∧
      cr.catids.Sorted catidLE ∧
      cr.id = (((cr.home_fixes.head?).map Fix.time).getD 0, cr.catids) := by
  have hp : ([(⟨"a", "F1", 0, 0, 0⟩ : Fix), ⟨"b", "F2", 1, 5, 0⟩,
      ⟨"c", "F1", 2, 0, 5⟩] : List Fix).Pairwise timeLE := by
    rw [List.pairwise_cons, List.pairwise_cons]
    refine ⟨fun b hb => ?_, fun b hb => ?_, List.pairwise_singleton _ _⟩
    · rcases List.mem_cons.mp hb with he | he
      · rw [he]; show (0 : ℚ) ≤ 1; norm_num
      · rw [List.mem_singleton.mp he]; show (0 : ℚ) ≤ 2; norm_num
    · rw [List.mem_singleton.mp hb]; show (1 : ℚ) ≤ 2; norm_num
  exact ⟨hp, crossing_cardinality 200 1000 _ hp⟩

/-! Claim C3: the closest-meetings computation. -/

/-- One comparison step of `find_closest_meeting`: a strict improvement of
the running minimum delay is pushed onto the front of the meeting list. -/
def meetingStep (st : WithTop ℚ × List (Fix × Fix)) (p : Fix × Fix) :
    WithTop ℚ × List (Fix × Fix) :=
  if ((Fix.delay_from_fix p.1 p.2 : ℚ) : WithTop ℚ) < st.1 then
    (((Fix.delay_from_fix p.1 p.2 : ℚ) : WithTop ℚ), p :: st.2)
  else st

/-- The query-field pairs `find_closest_meeting` enumerates, in scan
order. -/
def meetingPairs (catids : List String) (home_fixes : List Fix) : List (Fix × Fix) :=
  catids.dropLast.flatMap (fun query_catid =>
    (home_fixes.filter (fun h => decide (h.catid = query_catid))).flatMap (fun q =>
      (home_fixes.filter (fun h => decide (¬ h.catid = query_catid))).map
        (fun fld => (q, fld))))

theorem foldl_flatMap_eq {α β γ : Type} (g : α → List β) (step : γ → β → γ) :
    ∀ (l : List α) (init : γ),
      (l.flatMap g).foldl step init = l.foldl (fun s a => (g a).foldl step s) init := by
  intro l
  induction l with
  | nil => intro init; rfl
  | cons a l ih =>
    intro init
    rw [List.flatMap_cons, List.foldl_append, List.foldl_cons, ih]

/-- `find_closest_meeting` is the fold of `meetingStep` over the scan-order
pair list, truncated to the first three entries. -/
theorem find_closest_meeting_eq (catids : List String) (home_fixes : List Fix) :
    find_closest_meeting catids home_fixes =
      (((meetingPairs catids home_fixes).foldl meetingStep
        ((⊤ : WithTop ℚ), [])).2).take 3 := by
  rw [find_closest_meeting, meetingPairs, foldl_flatMap_eq]
  refine congrArg (List.take 3) (congrArg Prod.snd (List.foldl_ext _ _ _ ?_))
  intro st qc _hqc
  show (home_fixes.filter (fun h => decide (h.catid = qc))).foldl _ st = _
  rw [foldl_flatMap_eq]
  refine List.foldl_ext _ _ _ ?_
  intro st1 q _hq
  rw [List.foldl_map]
  rfl

/-- Invariant of the `meetingStep` fold: the final meeting list is drawn
from the initial list and the processed pairs, the final running minimum is
a lower bound for all processed pairs and all recorded meetings and is
attained by the head, the list's delays are strictly ascending, and the
list is empty only while the running minimum is still `sys.maxsize`. -/
theorem meeting_foldl_inv :
    ∀ (pairs : List (Fix × Fix)) (ct : WithTop ℚ) (lst : List (Fix × Fix)),
      (∀ p ∈ lst, ct ≤ ((Fix.delay_from_fix p.1 p.2 : ℚ) : WithTop ℚ)) →
      (∀ p, lst.head? = some p → ((Fix.delay_from_fix p.1 p.2 : ℚ) : WithTop ℚ) = ct) →
      (lst = [] → ct = ⊤) →
      lst.Pairwise (fun p q2 =>
        Fix.delay_from_fix p.1 p.2 < Fix.delay_from_fix q2.1 q2.2) →
      ((∀ p ∈ (pairs.foldl meetingStep (ct, lst)).2, p ∈ lst ∨ p ∈ pairs) ∧
        (∀ p ∈ pairs, (pairs.foldl meetingStep (ct, lst)).1 ≤
          ((Fix.delay_from_fix p.1 p.2 : ℚ) : WithTop ℚ)) ∧
        (∀ p ∈ (pairs.foldl meetingStep (ct, lst)).2,
          (pairs.foldl meetingStep (ct, lst)).1 ≤
            ((Fix.delay_from_fix p.1 p.2 : ℚ) : WithTop ℚ)) ∧
        (∀ p, (pairs.foldl meetingStep (ct, lst)).2.head? = some p →
          ((Fix.delay_from_fix p.1 p.2 : ℚ) : WithTop ℚ) =
            (pairs.foldl meetingStep (ct, lst)).1) ∧
        ((pairs.foldl meetingStep (ct, lst)).2 = [] →
          (pairs.foldl meetingStep (ct, lst)).1 = ⊤) ∧
        (pairs.foldl meetingStep (ct, lst)).2.Pairwise (fun p q2 =>
          Fix.delay_from_fix p.1 p.2 < Fix.delay_from_fix q2.1 q2.2) ∧
        (pairs.foldl meetingStep (ct, lst)).1 ≤ ct) := by
  intro pairs
  induction pairs with
  | nil =>
    intro ct lst h1 h2 h3 h4
    exact ⟨fun p hp => Or.inl hp, by simp, h1, h2, h3, h4, le_refl ct⟩
  | cons p ps ih =>
    intro ct lst h1 h2 h3 h4
    rw [List.foldl_cons]
    by_cases hlt : ((Fix.delay_from_fix p.1 p.2 : ℚ) : WithTop ℚ) < ct
    · have hstep : meetingStep (ct, lst) p =
          (((Fix.delay_from_fix p.1 p.2 : ℚ) : WithTop ℚ), p :: lst) := by
        rw [meetingStep]
        exact if_pos hlt
      rw [hstep]
      have hnew1 : ∀ x ∈ p :: lst,
          ((Fix.delay_from_fix p.1 p.2 : ℚ) : WithTop ℚ) ≤
            ((Fix.delay_from_fix x.1 x.2 : ℚ) : WithTop ℚ) := by
        intro x hx
        rcases List.mem_cons.mp hx with he | hm
        · rw [he]
        · exact le_trans (le_of_lt hlt) (h1 x hm)
      have hnew4 : (p :: lst).Pairwise (fun a b =>
          Fix.delay_from_fix a.1 a.2 < Fix.delay_from_fix b.1 b.2) := by
        rw [List.pairwise_cons]
        refine ⟨fun b hb => ?_, h4⟩
        exact WithTop.coe_lt_coe.mp (lt_of_lt_of_le hlt (h1 b hb))
      obtain ⟨i1, i2, i3, i4, i5, i6, i7⟩ := ih
        ((Fix.delay_from_fix p.1 p.2 : ℚ) : WithTop ℚ) (p :: lst) hnew1
        (fun x hx => by rw [List.head?_cons] at hx; injection hx with hx; rw [hx])
        (fun hx => absurd hx (List.cons_ne_nil p lst)) hnew4
      refine ⟨fun x hx => ?_, fun x hx => ?_, i3, i4, i5, i6,
        le_trans i7 (le_of_lt hlt)⟩
      · rcases i1 x hx with hm | hm
        · rcases List.mem_cons.mp hm with he | hm2
          · exact Or.inr (he ▸ List.mem_cons_self p ps)
          · exact Or.inl hm2
        · exact Or.inr (List.mem_cons_of_mem p hm)
      · rcases List.mem_cons.mp hx with he | hm
        · rw [he]
          exact le_trans i7 (hnew1 p (List.mem_cons_self p lst))
        · exact i2 x hm
    · have hstep : meetingStep (ct, lst) p = (ct, lst) := by
        rw [meetingStep]
        exact if_neg hlt
      rw [hstep]
      obtain ⟨i1, i2, i3, i4, i5, i6, i7⟩ := ih ct lst h1 h2 h3 h4
      refine ⟨fun x hx => ?_, fun x hx => ?_, i3, i4, i5, i6, i7⟩
      · rcases i1 x hx with hm | hm
        · exact Or.inl hm
        · exact Or.inr (List.mem_cons_of_mem p hm)
      · rcases List.mem_cons.mp hx with he | hm
        · exact he ▸ le_trans i7 (not_lt.mp hlt)
        · exact i2 x hm

/-- Characterisation of the enumerated pairs: both components are home
fixes, the query component's catid is a non-final entry of the catid list,
and the field component belongs to a different animal. -/
theorem mem_meetingPairs (catids : List String) (home_fixes : List Fix) (p : Fix × Fix) :
    p ∈ meetingPairs catids home_fixes ↔
      ∃ qc ∈ catids.dropLast, p.1.catid = qc ∧ p.1 ∈ home_fixes ∧
        ¬ p.2.catid = qc ∧ p.2 ∈ home_fixes := by
  rw [meetingPairs]
  constructor
  · intro hp
    rcases List.mem_flatMap.mp hp with ⟨qc, hqc, hp2⟩
    rcases List.mem_flatMap.mp hp2 with ⟨q, hq, hp3⟩
    rcases List.mem_map.mp hp3 with ⟨fld, hfld, he⟩
    rw [List.mem_filter, decide_eq_true_eq] at hq hfld
    refine ⟨qc, hqc, ?_, ?_, ?_, ?_⟩
    · rw [← he]; exact hq.2
    · rw [← he]; exact hq.1
    · rw [← he]; exact hfld.2
    · rw [← he]; exact hfld.1
  · rintro ⟨qc, hqc, hq1, hq2, hq3, hq4⟩
    refine List.mem_flatMap.mpr ⟨qc, hqc, List.mem_flatMap.mpr ⟨p.1,
      List.mem_filter.mpr ⟨hq2, decide_eq_true_eq.mpr hq1⟩, List.mem_map.mpr ⟨p.2,
        List.mem_filter.mpr ⟨hq4, decide_eq_true_eq.mpr hq3⟩, rfl⟩⟩⟩

/-- Coverage: every cross-animal pair of home fixes (with both animal ids
in the catid list) is enumerated, in one order or the other. -/
theorem cross_pair_covered (catids : List String) (home_fixes : List Fix)
    (u v : Fix) (hu : u ∈ home_fixes) (hv : v ∈ home_fixes)
    (hcu : u.catid ∈ catids) (hcv : v.catid ∈ catids) (hne : u.catid ≠ v.catid) :
    (u, v) ∈ meetingPairs catids home_fixes ∨
    (v, u) ∈ meetingPairs catids home_fixes := by
  have hnil : catids ≠ [] := fun h => absurd (h ▸ hcu) (List.not_mem_nil _)
  have hdecomp := List.dropLast_append_getLast hnil
  by_cases hud : u.catid ∈ catids.dropLast
  · exact Or.inl ((mem_meetingPairs catids home_fixes (u, v)).mpr
      ⟨u.catid, hud, rfl, hu, fun h => hne h.symm, hv⟩)
  · have hug : u.catid = catids.getLast hnil := by
      rcases List.mem_append.mp (hdecomp ▸ hcu) with h | h
      · exact absurd h hud
      · exact List.mem_singleton.mp h
    have hvd : v.catid ∈ catids.dropLast := by
      rcases List.mem_append.mp (hdecomp ▸ hcv) with h | h
      · exact h
      · exact absurd ((List.mem_singleton.mp h).trans hug.symm) (Ne.symm hne)
    exact Or.inr ((mem_meetingPairs catids home_fixes (v, u)).mpr
      ⟨v.catid, hvd, rfl, hv, fun h => hne h, hu⟩)

theorem delay_from_fix_comm (u v : Fix) :
    Fix.delay_from_fix u v = Fix.delay_from_fix v u := by
  rw [Fix.delay_from_fix, Fix.delay_from_fix, abs_sub_comm]

theorem head_take3 {α : Type} (l : List α) : (l.take 3).head? = l.head? := by
  cases l <;> rfl

theorem take3_eq_nil {α : Type} (l : List α) : l.take 3 = [] ↔ l = [] := by
  cases l <;> simp

/-- Claim C3 (amended): for every committed Crossing, the closest-meetings
list holds at most three pairs, each made of two home fixes of distinct
animals; its delays are strictly ascending (so the smallest-delay pair
comes first and equal-delay pairs are never duplicated: only strict
improvements of the running minimum are recorded); its first entry attains
the globally minimal delay over all cross-animal pairs of home fixes; and
it is nonempty whenever a cross-animal pair exists. The list is the chain
of strict running-minimum improvements (most recent first), truncated to
three, not the three globally smallest pairs. -/
theorem closest_meeting_spec (radius cutoff : ℚ) (fixes : List Fix) :
    ∀ cr ∈ findCrossings radius cutoff fixes,
      cr.closest_meetings.length ≤ 3 ∧
      (∀ p ∈ cr.closest_meetings,
        p.1 ∈ cr.home_fixes ∧ p.2 ∈ cr.home_fixes ∧ p.1.catid ≠ p.2.catid) ∧
      cr.closest_meetings.Pairwise (fun p q2 =>
        Fix.delay_from_fix p.1 p.2 < Fix.delay_from_fix q2.1 q2.2) ∧
      (∀ p, cr.closest_meetings.head? = some p →
        ∀ u ∈ cr.home_fixes, ∀ v ∈ cr.home_fixes, u.catid ≠ v.catid →
          Fix.delay_from_fix p.1 p.2 ≤ Fix.delay_from_fix u v) ∧
      ((∃ u ∈ cr.home_fixes, ∃ v ∈ cr.home_fixes, u.catid ≠ v.catid) →
        cr.closest_meetings ≠ []) := by
  intro cr hcr
  rw [findCrossings, clusters_to_crossings] at hcr
  rcases mem_clusters_to_crossings _ [] cr hcr with h | ⟨cl, hcl, _hlen, he⟩
  · exact absurd h (List.not_mem_nil cr)
  have hinv := findClustersFXAux_inv radius cutoff fixes [] [] (by simp) cl hcl
  subst he
  rw [mkCrossing_closest_meetings, mkCrossing_home_fixes, find_closest_meeting_eq]
  have hcats_home : ∀ f ∈ cl.home_fixes.insertionSort timeLE,
      f.catid ∈ (firstSeen (cl.all_fixes.map Fix.catid) []).insertionSort catidLE := by
    intro f hf
    rw [List.mem_insertionSort] at hf
    rw [List.mem_insertionSort, firstSeen_mem]
    exact ⟨List.mem_map_of_mem Fix.catid (hinv.2.2.2.2 f hf), List.not_mem_nil _⟩
  obtain ⟨i1, i2, i3, i4, i5, i6, _i7⟩ := meeting_foldl_inv
    (meetingPairs ((firstSeen (cl.all_fixes.map Fix.catid) []).insertionSort catidLE)
      (cl.home_fixes.insertionSort timeLE)) ⊤ [] (by simp) (by simp) (fun _ => rfl)
    List.Pairwise.nil
  refine ⟨?_, ?_, ?_, ?_, ?_⟩
  · rw [List.length_take]
    exact min_le_left 3 _
  · intro p hp
    have hp2 := List.take_subset 3 _ hp
    rcases i1 p hp2 with hm | hm
    · exact absurd hm (List.not_mem_nil p)
    · obtain ⟨qc, _hqc, hq1, hq2, hq3, hq4⟩ := (mem_meetingPairs _ _ p).mp hm
      exact ⟨hq2, hq4, fun hcc => hq3 (hcc ▸ hq1)⟩
  · exact i6.sublist (List.take_sublist 3 _)
  · intro p hp u hu v hv huv
    rw [head_take3] at hp
    have hattain := i4 p hp
    have hucat := hcats_home u hu
    have hvcat := hcats_home v hv
    rcases cross_pair_covered _ _ u v hu hv hucat hvcat huv with hcov | hcov
    · have := le_trans (le_of_eq hattain) (i2 (u, v) hcov)
      exact WithTop.coe_le_coe.mp this
    · have := le_trans (le_of_eq hattain) (i2 (v, u) hcov)
      rw [delay_from_fix_comm u v]
      exact WithTop.coe_le_coe.mp this
  · rintro ⟨u, hu, v, hv, huv⟩ hnil
    rw [take3_eq_nil] at hnil
    have htop := i5 hnil
    have hucat := hcats_home u hu
    have hvcat := hcats_home v hv
    rcases cross_pair_covered _ _ u v hu hv hucat hvcat huv with hcov | hcov
    · have := i2 (u, v) hcov
      rw [htop] at this
      exact absurd (lt_of_lt_of_le (WithTop.coe_lt_top _) this) (lt_irrefl _)
    · have := i2 (v, u) hcov
      rw [htop] at this
      exact absurd (lt_of_lt_of_le (WithTop.coe_lt_top _) this) (lt_irrefl _)

/-- Fixes for the closest-meeting counterexample: one fix of animal F1 at
time 0 and three fixes of animal F2 at times 5, 7 and 10, all at the same
location. -/
def cexMeet1 : Fix := ⟨"a1", "F1", 0, 0, 0⟩

def cexMeet2 : Fix := ⟨"b2", "F2", 5, 0, 0⟩

def cexMeet3 : Fix := ⟨"b3", "F2", 7, 0, 0⟩

def cexMeet4 : Fix := ⟨"b1", "F2", 10, 0, 0⟩

/-- The one crossing the pipeline commits on the counterexample pool. -/
def cexCrossing : Crossing :=
  mkCrossing (0, ["F1", "F2"])
    [cexMeet1, cexMeet2, cexMeet3, cexMeet4] []
    [cexMeet1, cexMeet2, cexMeet3, cexMeet4] ["F1", "F2"]

theorem cexCrossing_pipeline :
    findCrossings 200 1000 [cexMeet1, cexMeet2, cexMeet3, cexMeet4] = [cexCrossing] := by
  have hle : catidLE "F1" "F2" := by
    rw [catidLE, String.le_iff_toList_le]
    decide
  have hne : ¬ (("F2" : String) = "F1") := by decide
  have hcl : findClustersFX 200 1000 [cexMeet1, cexMeet2, cexMeet3, cexMeet4] =
      [⟨[cexMeet1, cexMeet2, cexMeet3, cexMeet4], [],
        [cexMeet1, cexMeet2, cexMeet3, cexMeet4], 0, "F1", 0, 10, 10, 0, 0⟩] := by
    norm_num [findClustersFX, findClustersFXAux, scanFX, promote, promoteCats, mkCluster,
      Cluster.add_fix, Cluster.recalculate_core_data, Fix.delay_from_item,
      Fix.delay_from_fix, Fix.delay_from_cluster, Fix.dist_sq_from_item, dist_sq, keyX,
      flushAway, cexMeet1, cexMeet2, cexMeet3, cexMeet4]
  rw [findCrossings, hcl]
  norm_num [clusters_to_crossings, clusterToCrossingStep, firstSeen, cexCrossing,
    cexMeet1, cexMeet2, cexMeet3, cexMeet4, hne, hle, timeLE, List.filter_cons,
    List.filter_nil]

/-- Claim C3 as stated is false on the code: on the counterexample pool the
committed crossing has home fixes `cexMeet1` (animal F1) and `cexMeet2`,
`cexMeet3`, `cexMeet4` (animal F2), giving three cross-animal pairs with
delays 5, 7 and 10; the claim demands the three globally smallest-delay
pairs (here: all three, delays 5, 7, 10, in this order), but the code keeps
only the strict improvements of the running minimum — the single pair with
delay 5 — because the later pairs do not improve on it. -/
theorem closest_meeting_counterexample :
    findCrossings 200 1000 [cexMeet1, cexMeet2, cexMeet3, cexMeet4] = [cexCrossing] ∧
    cexCrossing.home_fixes = [cexMeet1, cexMeet2, cexMeet3, cexMeet4] ∧
    cexMeet1.catid ≠ cexMeet2.catid ∧ cexMeet1.catid ≠ cexMeet3.catid ∧
    cexMeet1.catid ≠ cexMeet4.catid ∧
    Fix.delay_from_fix cexMeet1 cexMeet2 = 5 ∧
    Fix.delay_from_fix cexMeet1 cexMeet3 = 7 ∧
    Fix.delay_from_fix cexMeet1 cexMeet4 = 10 ∧
    cexCrossing.closest_meetings = [(cexMeet1, cexMeet2)] := by
  have hle : catidLE "F1" "F2" := by
    rw [catidLE, String.le_iff_toList_le]
    decide
  have hne : ¬ (("F2" : String) = "F1") := by decide
  have hne2 : ¬ (("F1" : String) = "F2") := by decide
  have hw1 : (5 : WithTop ℚ) < ⊤ := by exact_mod_cast WithTop.coe_lt_top (5 : ℚ)
  have hw2 : ¬ ((7 : WithTop ℚ) < 5) := by exact_mod_cast (by norm_num : ¬ ((7 : ℚ) < 5))
  have hw3 : ¬ ((10 : WithTop ℚ) < 5) := by exact_mod_cast (by norm_num : ¬ ((10 : ℚ) < 5))
  refine ⟨cexCrossing_pipeline, ?_, ?_, ?_, ?_, ?_, ?_, ?_, ?_⟩ <;>
    norm_num [cexCrossing, mkCrossing, find_closest_meeting, firstSeen, timeLE,
      Fix.delay_from_fix, cexMeet1, cexMeet2, cexMeet3, cexMeet4, hne, hne2, hle,
      hw1, hw2, hw3, List.filter_cons, List.filter_nil, WithTop.coe_lt_top,
      WithTop.coe_lt_coe]

/-- Witness for `closest_meeting_spec` at the concrete crossing committed
on the counterexample pool. -/
theorem closest_meeting_spec_witness :
    cexCrossing ∈ findCrossings 200 1000 [cexMeet1, cexMeet2, cexMeet3, cexMeet4] ∧
    (cexCrossing.closest_meetings.length ≤ 3 ∧
      (∀ p ∈ cexCrossing.closest_meetings,
        p.1 ∈ cexCrossing.home_fixes ∧ p.2 ∈ cexCrossing.home_fixes ∧
        p.1.catid ≠ p.2.catid) ∧
      cexCrossing.closest_meetings.Pairwise (fun p q2 =>
        Fix.delay_from_fix p.1 p.2 < Fix.delay_from_fix q2.1 q2.2) ∧
      (∀ p, cexCrossing.closest_meetings.head? = some p →
        ∀ u ∈ cexCrossing.home_fixes, ∀ v ∈ cexCrossing.home_fixes, u.catid ≠ v.catid →
          Fix.delay_from_fix p.1 p.2 ≤ Fix.delay_from_fix u v) ∧
      ((∃ u ∈ cexCrossing.home_fixes, ∃ v ∈ cexCrossing.home_fixes, u.catid ≠ v.catid) →
        cexCrossing.closest_meetings ≠ [])) :=
  have hmem : cexCrossing ∈ findCrossings 200 1000 [cexMeet1, cexMeet2, cexMeet3, cexMeet4] := by
    rw [cexCrossing_pipeline]
    exact List.mem_singleton.mpr rfl
  ⟨hmem, closest_meeting_spec 200 1000 [cexMeet1, cexMeet2, cexMeet3, cexMeet4]
    cexCrossing hmem⟩

/-- Concrete committed cluster for the `centroid_correct` witness: two
home fixes at (0, 0) and (0, 10), centroid (0, 5). -/
def witClusterC4 : Cluster :=
  ⟨[⟨"g1", "F1", 0, 0, 0⟩, ⟨"g2", "F1", 1, 0, 10⟩], [],
    [⟨"g1", "F1", 0, 0, 0⟩, ⟨"g2", "F1", 1, 0, 10⟩], 0, "F1", 0, 1, 1, 0, 5⟩

/-- Witness for `centroid_correct` at a concrete committed cluster. -/
theorem centroid_correct_witness :
    witClusterC4 ∈
      findClustersFC 200 1000 [⟨"g1", "F1", 0, 0, 0⟩, ⟨"g2", "F1", 1, 0, 10⟩] ∧
    (witClusterC4.x =
        (witClusterC4.home_fixes.map Fix.x).sum / (witClusterC4.home_fixes.length : ℚ) ∧
      witClusterC4.y =
        (witClusterC4.home_fixes.map Fix.y).sum / (witClusterC4.home_fixes.length : ℚ) ∧
      witClusterC4.home_fixes ≠ []) := by
  have hout : findClustersFC 200 1000 [⟨"g1", "F1", 0, 0, 0⟩, ⟨"g2", "F1", 1, 0, 10⟩] =
      [witClusterC4] := by
    norm_num [findClustersFC, findClustersFCAux, scanFC, promote, mkCluster,
      Cluster.add_fix, Cluster.recalculate_core_data, Fix.delay_from_item,
      Fix.delay_from_fix, Fix.delay_from_cluster, Fix.dist_sq_from_item, dist_sq,
      witClusterC4]
  have hmem : witClusterC4 ∈
      findClustersFC 200 1000 [⟨"g1", "F1", 0, 0, 0⟩, ⟨"g2", "F1", 1, 0, 10⟩] := by
    rw [hout]
    exact List.mem_singleton.mpr rfl
  exact ⟨hmem, (centroid_correct 200 1000 _).1 _ hmem⟩

end CatAmount
